import Mathlib

/-!
Verification development for the prog-edu-assistant grading backend.

The Go sources are shallowly embedded: the notebook JSON model, the notebook
parser/emitter (`notebook.Parse` / `Notebook.Marshal`), the master-notebook
transformations (`Notebook.ToStudent`, `Notebook.ToAutograder`,
`CleanForStudent`), the autograder outcome classification
(`Autograder.RunUnitTests`, `Autograder.RunInlineTest`,
`Autograder.GradeExercise`, `Autograder.Grade`) and the upload handler
(`Server.handleUpload`).

Modelling conventions:
  * Cell source text is a list of characters (`Src`); Go string indices
    become explicit list surgery.
  * Go `map[string]interface{}` values are association lists with
    map-update (replace-or-append) semantics; JSON objects produced by
    `encoding/json` unmarshalling have unique keys, and our `alookup`
    returns the binding that the Go map holds.  Where Go serializes a map
    the keys are emitted in sorted order; our parser is key-lookup based,
    so the order in which an object's fields are listed is irrelevant to
    every theorem below.
  * Filesystem and process effects are supplied by environment records:
    the result of `os.Stat`, the contents a file read returns, and the
    exit status / captured output of a sandboxed run are inputs to the
    model, and the writes the code performs are recorded as an explicit
    effect trace.
  * A Go `nil` cell-metadata map is conflated with the empty map: every
    operation in scope (emission via `Cell.json`, the `exercise_id`
    lookup in `Grade`) treats the two identically, and the spec (§4.1)
    states that cells without metadata yield an empty map.  The top-level
    notebook metadata is kept as an `Option` because `Marshal` emits
    `null` for a nil map there.
-/

namespace PEA

/-- Source text of a cell, as a list of characters. -/
abbrev Src := List Char

/-- First binding of a key in an association list (Go map lookup). -/
def alookup {α : Type} : List (String × α) → String → Option α
  | [], _ => none
  | (k, v) :: rest, key => if k = key then some v else alookup rest key

/-- Go map assignment `m[k] = v`: replace the binding if present, else append. -/
def ainsert {α : Type} (l : List (String × α)) (k : String) (v : α) : List (String × α) :=
  if l.any (fun p => p.1 = k) then l.map (fun p => if p.1 = k then (k, v) else p)
  else l ++ [(k, v)]

/-- Whether an association list binds a key. -/
def ahas {α : Type} (l : List (String × α)) (k : String) : Bool :=
  l.any (fun p => p.1 = k)

/-- JSON values as produced by Go's `encoding/json` unmarshalling into
`map[string]interface{}`.  Numbers are modelled as integers (the notebook
format only uses integral numbers in the fields this development reads). -/
inductive Json where
  | null
  | bool (b : Bool)
  | num (n : Int)
  | str (s : String)
  | arr (elts : List Json)
  | obj (fields : List (String × Json))
deriving Repr

/-- Split a character list at newline characters; the separators are dropped
and the result always has one more piece than there are newlines
(`strings.Split(s, "\n")`). -/
def splitNL : Src → List Src
  | [] => [[]]
  | c :: rest =>
    if c = '\n' then [] :: splitNL rest
    else
      match splitNL rest with
      | [] => [[c]]
      | l :: ls => (c :: l) :: ls

/-- Re-append a newline to every piece except the last (the loop body of
`marshalText` in notebook.go). -/
def appendNLButLast : List Src → List Src
  | [] => []
  | [l] => [l]
  | l :: ls => (l ++ ['\n']) :: appendNLButLast ls

/-- The `marshalText` helper of notebook.go: split a source string at line
boundaries, keeping the newline on every line but the last. -/
def marshalText (s : Src) : List Src :=
  appendNLButLast (splitNL s)

/-- The `parseText` helper of notebook.go: a source field is either a single
string or a list of strings, concatenated without separator.  The argument is
`none` when the JSON key was absent (a Go `nil` interface). -/
def parseText : Option Json → Except String Src
  | some (.str s) => .ok s.toList
  | some (.arr ss) =>
    ss.foldlM (fun acc j =>
      match j with
      | .str s => .ok (acc ++ s.toList)
      | _ => .error "cell.source has not a string") []
  | _ => .error "cell.source is neither a list nor string"

/-- One notebook cell (notebook.go `Cell`).  The raw `Data` field is dropped:
the Go comment states it is ignored on serialization, and no operation in
scope reads it after parsing. -/
structure Cell where
  type : String
  metadata : List (String × Json)
  outputs : Option (List (String × Src))
  source : Src
deriving Repr

/-- A parsed notebook (notebook.go `Notebook`).  As for cells, the raw `Data`
map is not retained. -/
structure Notebook where
  nbformat : Int
  nbformatMinor : Int
  metadata : Option (List (String × Json))
  cells : List Cell
deriving Repr

/-- One step of the `outputs` parsing loop of `Parse`. -/
def outStep (acc : List (String × Src)) (j : Json) : Except String (List (String × Src)) :=
  match j with
  | .obj m =>
    match alookup m "name" with
    | none => .ok acc
    | some (.str name) =>
      match parseText (alookup m "text") with
      | .ok text => .ok (ainsert acc name text)
      | .error e => .error ("could not parse text: " ++ e)
    | some _ => .error "output name is not a string"
  | _ => .ok acc

/-- Parse the `outputs` list of a cell (the inner loop of `Parse`). -/
def parseOutputs (ss : List Json) : Except String (List (String × Src)) :=
  ss.foldlM outStep []

/-- Parse one cell object (the per-cell body of `Parse` in notebook.go).
The error `parseText` returns for the `source` field is discarded, exactly as
in the Go code, which assigns it to an `err` variable that is never checked;
the cell source is then the empty string. -/
def parseCell (celldata : List (String × Json)) : Except String Cell := do
  let type := match alookup celldata "cell_type" with
    | some (.str t) => t
    | _ => ""
  let metadata := match alookup celldata "metadata" with
    | some (.obj m) => m
    | _ => []
  let source := match parseText (alookup celldata "source") with
    | .ok s => s
    | .error _ => []
  let outputs ← match alookup celldata "outputs" with
    | none => pure none
    | some (.arr ss) => (parseOutputs ss).map some
    | some _ => .error "cell.outputs is not a list"
  pure { type := type, metadata := metadata, outputs := outputs, source := source }

/-- The `Parse` function of notebook.go, over already-unmarshalled JSON. -/
def Parse (j : Json) : Except String Notebook := do
  match j with
  | .obj data =>
    let nbformat := match alookup data "nbformat" with
      | some (.num n) => n
      | _ => 0
    let nbformatMinor := match alookup data "nbformat_minor" with
      | some (.num n) => n
      | _ => 0
    let metadata := match alookup data "metadata" with
      | some (.obj m) => some m
      | _ => none
    let cells ← match alookup data "cells" with
      | none => pure []
      | some (.arr cellsList) =>
        cellsList.mapM (fun x =>
          match x with
          | .obj celldata => parseCell celldata
          | _ => .error "cell is not a map")
      | some _ => .error ".cells is not a list"
    pure { nbformat := nbformat, nbformatMinor := nbformatMinor,
           metadata := metadata, cells := cells }
  | _ => .error "error parsing JSON"

/-- The JSON object `Cell.json` emits for one stored output. -/
def outJson (p : String × Src) : Json :=
  Json.obj [("name", .str p.1), ("output_type", .str "stream"),
            ("text", .arr ((marshalText p.2).map (fun l => Json.str l.asString)))]

/-- The fields of the JSON object emitted by `Cell.json`: exactly the keys
the Go code stores in its fresh map; `encoding/json` would emit them in
sorted key order, which no theorem below depends on. -/
def cellFields (c : Cell) : List (String × Json) :=
  [("metadata", .obj c.metadata), ("cell_type", .str c.type)]
  ++ (if c.type = "code" then
        [("execution_count", Json.null),
         ("outputs", Json.arr ((c.outputs.getD []).map outJson))]
      else [])
  ++ [("source", .arr ((marshalText c.source).map (fun l => Json.str l.asString)))]

/-- The `Cell.json` method of notebook.go: the JSON object emitted for one
cell. -/
def cellJson (c : Cell) : Json :=
  Json.obj (cellFields c)

/-- The `Notebook.Marshal` method of notebook.go.  When the cell list is
empty the Go code marshals a nil `[]interface{}` slice, which `encoding/json`
renders as JSON `null`; a nil top-level metadata map likewise becomes
`null`. -/
def Marshal (n : Notebook) : Json :=
  Json.obj [("nbformat", .num n.nbformat),
            ("nbformat_minor", .num n.nbformatMinor),
            ("metadata", match n.metadata with
              | some m => .obj m
              | none => Json.null),
            ("cells", match n.cells with
              | [] => Json.null
              | cs => .arr (cs.map cellJson))]

/-! ## Autograder output classification (unnamed/part_024) -/

/-- Character class `[a-zA-Z0-9_]`. -/
def isAlnumU (c : Char) : Bool :=
  c.isAlpha || c.isDigit || c = '_'

/-- Character class `[a-zA-Z0-9_-]`. -/
def isAlnumUH (c : Char) : Bool :=
  c.isAlpha || c.isDigit || c = '_' || c = '-'

/-- Drop a literal prefix, or fail. -/
def dropLit (lit : Src) (s : Src) : Option Src :=
  if lit.isPrefixOf s then some (s.drop lit.length) else none

/-- Attempt to match `outcomeRegex` — the pattern
`(test[a-zA-Z0-9_]*) \(([a-zA-Z0-9_-]+)\.([a-zA-Z0-9_]*)\) \.\.\. (ok|FAIL|ERROR)`
— at the start of the input.  The character classes make the greedy
repetitions deterministic, so this parser computes exactly the regex match.
Returns the four groups and the text after the match. -/
def parseOutcomeAt (s : Src) : Option ((String × String × String × String) × Src) :=
  match dropLit "test".toList s with
  | none => none
  | some s1 =>
    match dropLit " (".toList (s1.dropWhile isAlnumU) with
    | none => none
    | some s3 =>
      if (s3.takeWhile isAlnumUH).isEmpty then none
      else
        match dropLit ".".toList (s3.dropWhile isAlnumUH) with
        | none => none
        | some s5 =>
          match dropLit ") ... ".toList (s5.dropWhile isAlnumU) with
          | none => none
          | some s7 =>
            match dropLit "ok".toList s7 with
            | some r =>
              some ((("test".toList ++ s1.takeWhile isAlnumU).asString,
                     (s3.takeWhile isAlnumUH).asString, (s5.takeWhile isAlnumU).asString, "ok"), r)
            | none =>
              match dropLit "FAIL".toList s7 with
              | some r =>
                some ((("test".toList ++ s1.takeWhile isAlnumU).asString,
                       (s3.takeWhile isAlnumUH).asString, (s5.takeWhile isAlnumU).asString, "FAIL"), r)
              | none =>
                match dropLit "ERROR".toList s7 with
                | some r =>
                  some ((("test".toList ++ s1.takeWhile isAlnumU).asString,
                         (s3.takeWhile isAlnumUH).asString, (s5.takeWhile isAlnumU).asString, "ERROR"), r)
                | none => none

/-- Fuelled scan for all (leftmost, non-overlapping) `outcomeRegex` matches. -/
def outcomeMatchesAux : Nat → Src → List (String × String × String × String)
  | 0, _ => []
  | _ + 1, [] => []
  | fuel + 1, c :: rest =>
    match parseOutcomeAt (c :: rest) with
    | some (g, remaining) => g :: outcomeMatchesAux fuel remaining
    | none => outcomeMatchesAux fuel rest

/-- All `outcomeRegex` matches in a unit-test runner output
(`outcomeRegex.FindAllSubmatch(out, -1)`). -/
def outcomeMatches (s : Src) : List (String × String × String × String) :=
  outcomeMatchesAux s.length s

/-- One step of the unit-test outcome fold: record the method's boolean, and
clear `passed` on a FAIL or ERROR status. -/
def unitStep (t : List (String × Json)) (m : String × String × String × String) :
    List (String × Json) :=
  if m.2.2.2 = "ok" then ainsert t m.1 (.bool true)
  else ainsert (ainsert t m.1 (.bool false)) "passed" (.bool false)

/-- The per-file loop body of `Autograder.RunUnitTests`: build the outcome
object for one `*Test.py` file from the exit status and the captured runner
output. -/
def unitTestOutcome (exitZero : Bool) (out : Src) : List (String × Json) :=
  let t0 : List (String × Json) := ainsert [] "passed" (.bool exitZero)
  let mm := outcomeMatches out
  if mm.isEmpty then
    ainsert (ainsert t0 "passed" (.bool false)) "error" (.str "no test cases found")
  else
    mm.foldl unitStep t0

/-- Content scan for the inline-test close marker: the text before the first
occurrence of two consecutive closing braces, and the text after it. -/
def findClose : Src → Option (Src × Src)
  | [] => none
  | '}' :: '}' :: rest => some ([], rest)
  | c :: rest => (findClose rest).map (fun p => (c :: p.1, p.2))

/-- Attempt to match `inlineOutcomeRegex` — `(OK|ERROR|FAIL)` followed by a
double open brace, a body containing no double close brace, and a double
close brace — at the start of the input.  At a fixed position at most one
alternative can match, so the parser is deterministic. -/
def parseInlineAt (s : Src) : Option ((String × String) × Src) :=
  let tryOne (status : String) : Option ((String × String) × Src) := do
    let s1 ← dropLit (status.toList ++ ['{', '{']) s
    let (content, rest) ← findClose s1
    pure ((status, content.asString), rest)
  match tryOne "OK" with
  | some r => some r
  | none =>
    match tryOne "ERROR" with
    | some r => some r
    | none => tryOne "FAIL"

/-- Fuelled scan for all `inlineOutcomeRegex` matches. -/
def inlineMatchesAux : Nat → Src → List (String × String)
  | 0, _ => []
  | _ + 1, [] => []
  | fuel + 1, c :: rest =>
    match parseInlineAt (c :: rest) with
    | some (g, remaining) => g :: inlineMatchesAux fuel remaining
    | none => inlineMatchesAux fuel rest

/-- All `(status, message)` pairs found by `inlineOutcomeRegex` in a captured
inline-test output. -/
def inlineMatches (s : Src) : List (String × String) :=
  inlineMatchesAux s.length s

/-- Suffix of the input starting at the first occurrence of the literal, if
any. -/
def findLitSuffix (lit : Src) : Src → Option Src
  | [] => if lit.isEmpty then some [] else none
  | c :: rest =>
    if lit.isPrefixOf (c :: rest) then some (c :: rest)
    else findLitSuffix lit rest

/-- Matches of `SyntaxError: .*$` (multi-line): for each output line that
contains the literal, the text from its first occurrence to the end of the
line. -/
def synErrMatches (out : Src) : List Src :=
  (splitNL out).filterMap (fun line => findLitSuffix "SyntaxError: ".toList line)

/-- The `timeoutRegex` test `time limit.*Killing it`: without dot-all, the
dot does not cross newlines, so the regex matches exactly when some single
line contains `time limit` followed later in that line by `Killing it`. -/
def timeoutHit (out : Src) : Bool :=
  (splitNL out).any (fun line =>
    match findLitSuffix "time limit".toList line with
    | some suf => (findLitSuffix "Killing it".toList (suf.drop "time limit".length)).isSome
    | none => false)

/-- The `strings.Join(parts, "; ")` of the syntax-error messages. -/
def joinSemi (parts : List Src) : String :=
  String.intercalate "; " (parts.map List.asString)

/-- The error-message accumulation of the inline-test marker fold: append
the message to the `error` string when it is non-empty.  The `error` key
only ever holds a string, so the Go type assertion in the append branch
cannot fail. -/
def inlineStepErr (oc : List (String × Json)) (msg : String) : List (String × Json) :=
  if msg ≠ "" then
    match alookup oc "error" with
    | some (.str old) => ainsert oc "error" (.str (old ++ "; " ++ msg))
    | _ => ainsert oc "error" (.str msg)
  else oc

/-- One step of the inline-test marker fold: clear `passed` on a non-OK
status, and append the marker's message (prefixed for ERROR statuses) to the
`error` string. -/
def inlineStep (oc : List (String × Json)) (m : String × String) : List (String × Json) :=
  inlineStepErr (if m.1 ≠ "OK" then ainsert oc "passed" (.bool false) else oc)
    (if m.1 = "ERROR" then "Test error: " ++ m.2 else m.2)

/-- The outcome-object construction of `Autograder.RunInlineTest`, from the
exit status of the sandboxed run and its captured output.  Mirrors the Go
statement order: exit status, syntax-error scan, timeout scan, the `passed`
store, the no-marker overwrite, then the marker fold that accumulates
`error` messages. -/
def inlineOutcome (exitZero : Bool) (out : Src) : List (String × Json) :=
  let serrs := synErrMatches out
  let passed1 := if serrs.isEmpty then exitZero else false
  let oc1 : List (String × Json) :=
    if serrs.isEmpty then [] else ainsert [] "error" (.str (joinSemi serrs))
  let passed2 := if timeoutHit out then false else passed1
  let oc2 := if timeoutHit out then ainsert oc1 "error" (.str "Time out.") else oc1
  let oc3 := ainsert oc2 "passed" (.bool passed2)
  let mm := inlineMatches out
  let oc4 := if mm.isEmpty then ainsert oc3 "passed" (.bool false) else oc3
  mm.foldl inlineStep oc4

/-! ## Grading engine (unnamed/part_024, first version of the package) -/

/-- Result of one sandboxed run: either the command could not be executed at
all (a non-`ExitError` from `CombinedOutput`, a pipeline error), or it ran
and exited, with its exit status and merged stdout+stderr. -/
inductive RunResult where
  | execFailure (msg : String)
  | exited (zero : Bool) (out : Src)

/-- Observable filesystem / process effects of a grading run. -/
inductive Effect where
  | createdScratch (dir : String)
  | ranUnitTest (dir file : String)
  | ranInlineTest (dir file : String)
  | ranTemplate (dir file : String)
deriving Repr, DecidableEq

/-- Environment for the autograder: configuration plus the filesystem and
subprocess oracles that close over the engine's I/O. -/
structure AGEnv where
  agDir : String
  scratchRoot : String
  includeLogs : Bool
  autoRemove : Bool
  removeOk : Bool
  mkdirOk : Bool
  scratchExists : String → Bool
  dirStat : String → Option Bool
  readFile : String → Option Src
  scratchOk : String → Bool
  listDir : String → Option (List String)
  runUnit : String → String → RunResult
  runInline : String → String → RunResult
  runTemplate : String → String → Option String × Src
  highlight : Src → Option Src
  now : Int

/-- Last path component (`filepath.Base`, for the slash-separated paths this
model builds). -/
def baseName (p : String) : String :=
  (p.splitOn "/").getLastD p

/-- The `Autograder.RunUnitTests` loop: run every `*Test.py` file in the
scratch directory, recording an outcome object and the merged log per file.
An exec-level failure aborts the whole walk, as in the Go code. -/
def RunUnitTests (env : AGEnv) (dir : String) :
    Except String (List (String × Json) × List (String × Src) × List Effect) := do
  match env.listDir dir with
  | none => .error ("error on listing " ++ dir)
  | some files =>
    files.foldlM (fun acc filename =>
      if filename.endsWith "Test.py" then
        let testname := filename.dropRight 3
        match env.runUnit dir filename with
        | .execFailure m => .error ("error running unit test command: " ++ m)
        | .exited z out =>
          .ok (ainsert acc.1 testname (.obj (unitTestOutcome z out)),
               ainsert acc.2.1 filename out,
               acc.2.2 ++ [Effect.ranUnitTest dir filename])
      else .ok acc) ([], [], [])

/-- The autogenerated HTML fragment for one inline test
(`inlineReportTmpl`).  The exact template text is irrelevant to every claim;
the fragment is kept deterministic in its inputs. -/
def renderInlineReport (formatted : Src) (passed : Bool) (msg : String) (logs : String) : Src :=
  ("<div class=\x27code\x27>".toList ++ formatted ++ "</div>\n".toList)
  ++ (if passed then "<span class=\x27ico green\x27>&check;</span><span class=\x27message\x27>Looks OK.</span>\n".toList
      else "<span class=\x27ico red\x27>&#x274C;</span><span class=\x27message error\x27>".toList
        ++ msg.toList ++ "</span>\n".toList
        ++ (if logs ≠ "" then ("<h2>Logs</h2>\n<div class=\x27logs\x27>\n" ++ logs ++ "\n</div>\n").toList else []))

/-- The `Autograder.RunInlineTest` function for one `*_inlinetest.py` file:
classify the outcome from the run result and build the report fragment.
`syntaxhighlight.AsHTML` is an external library; its result (or failure,
which selects the escaped `<pre>` fallback) comes from the environment. -/
def RunInlineTest (env : AGEnv) (dir filename submissionFilename : String) :
    Except String (List (String × Json) × Src × Src) := do
  match env.readFile submissionFilename with
  | none => .error ("error reading submission file " ++ submissionFilename)
  | some submission =>
    match env.runInline dir filename with
    | .execFailure m => .error ("error running unit test command: " ++ m)
    | .exited z out =>
      let outcome := inlineOutcome z out
      let formatted := match env.highlight submission with
        | some html => html
        | none => "<pre>".toList ++ submission ++ "</pre>".toList
      let msg := match alookup outcome "error" with
        | some (.str m) => m
        | _ => ""
      let passed := !(z = false || !(synErrMatches out).isEmpty || timeoutHit out)
      let logs := if env.includeLogs then out.asString else ""
      .ok (outcome, out, renderInlineReport formatted passed msg logs)

/-- The `Autograder.RunInlineTests` loop over all `*_inlinetest.py` files. -/
def RunInlineTests (env : AGEnv) (dir : String) :
    Except String (List (String × Json) × List (String × Src) × List (String × Src) × List Effect) := do
  match env.readFile (dir ++ "/submission.py") with
  | none => .error ("error statting " ++ dir ++ "/submission.py")
  | some _ =>
    match env.listDir dir with
    | none => .error ("error on listing " ++ dir)
    | some files =>
      files.foldlM (fun acc filename =>
        if filename.endsWith "_inlinetest.py" then
          let testname := filename.dropRight "_inlinetest.py".length
          match RunInlineTest env dir filename (dir ++ "/submission.py") with
          | .error e => .error e
          | .ok (outcome, log, report) =>
            .ok (ainsert acc.1 testname (.obj outcome),
                 ainsert acc.2.1 testname log,
                 (if report.isEmpty then acc.2.2.1 else ainsert acc.2.2.1 testname report),
                 acc.2.2.2 ++ [Effect.ranInlineTest dir filename])
        else .ok acc) ([], [], [], [])

/-- The `joinInlineReports` helper: concatenate the per-test report
fragments in sorted test-name order, with `<br>` between consecutive
fragments, joined by newlines. -/
def joinInlineReports (reports : List (String × Src)) : Src :=
  let names := (reports.map Prod.fst).mergeSort (fun a b => a ≤ b)
  let parts := names.foldr (fun name acc =>
    match alookup reports name with
    | some r => r :: acc
    | none => acc) []
  match parts with
  | [] => []
  | p :: ps => ps.foldl (fun acc r => acc ++ "\n<br>\n".toList ++ r) p

/-- The `Autograder.RenderReports` loop: feed the outcome JSON to every
`*_template.py` script and concatenate their outputs; a failing script
contributes a reporter-error fragment followed by its output. -/
def RenderReports (env : AGEnv) (dir : String) :
    Except String (Src × List Effect) := do
  match env.listDir dir with
  | none => .error ("error on listing " ++ dir)
  | some files =>
    .ok (files.foldl (fun acc filename =>
      if filename.endsWith "_template.py" then
        match env.runTemplate dir filename with
        | (some e, out) =>
          (acc.1 ++ ("\n<h2 style=\x27color: red\x27>Reporter error</h2>\n<pre>" ++ e ++ "</pre>").toList ++ out,
           acc.2 ++ [Effect.ranTemplate dir filename])
        | (none, out) => (acc.1 ++ out, acc.2 ++ [Effect.ranTemplate dir filename])
      else acc) ([], []))

/-- The `Autograder.GradeExercise` function.  If the submission equals the
exercise's `empty_submission.py`, it short-circuits to a one-line report with
no effects; otherwise it materializes the scratch directory, runs unit and
inline tests, and assembles the outcome object with the rendered report. -/
def GradeExercise (env : AGEnv) (exerciseDir scratchDir : String) (submission : Src) :
    Except String (List (String × Json) × List Effect) :=
  let full : Except String (List (String × Json) × List Effect) := do
    if env.scratchOk scratchDir then
      let (unitOutcomes, unitLogs, effs1) ← RunUnitTests env scratchDir
      let (inlineOutcomes, inlineLogs, inlineReports, effs2) ← RunInlineTests env scratchDir
      let mergedOutcomes := inlineOutcomes.foldl (fun m p => ainsert m p.1 p.2) unitOutcomes
      let mergedLogs := inlineLogs.foldl (fun m p => ainsert m p.1 p.2) unitLogs
      let outcomeData : List (String × Json) :=
        [("results", .obj mergedOutcomes),
         ("logs", .obj (mergedLogs.map (fun p => (p.1, Json.str p.2.asString)))),
         ("reports", .obj (inlineReports.map (fun p => (p.1, Json.str p.2.asString))))]
      let (report, effs3) ← RenderReports env scratchDir
      let outcomeData :=
        if report.isEmpty then
          ainsert outcomeData "report" (.str (joinInlineReports inlineReports).asString)
        else ainsert outcomeData "report" (.str report.asString)
      .ok (outcomeData, Effect.createdScratch scratchDir :: (effs1 ++ effs2 ++ effs3))
    else .error ("error creating scratch dir " ++ scratchDir)
  match env.readFile (exerciseDir ++ "/empty_submission.py") with
  | some b =>
    if b = submission then
      .ok ([("report", .str (baseName exerciseDir ++ ": empty submission"))], [])
    else full
  | none => full

/-- The optional `requested_exercise_id` filter of a metadata table: the Go
code keeps the empty string unless the value is present and a string. -/
def requestedOf (metadata : List (String × Json)) : String :=
  match alookup metadata "requested_exercise_id" with
  | some (.str r) => r
  | _ => ""

/-- Whether a cell is graded by `Grade` under a requested-exercise filter: it
carries a string `exercise_id` that the filter does not exclude. -/
def matchesExercise (requested : String) (c : Cell) : Bool :=
  match alookup c.metadata "exercise_id" with
  | some (.str e) => requested = "" || requested = e
  | _ => false

/-- The cell walk of `Autograder.Grade`: for each cell whose metadata carries
a string `exercise_id` (matching the optional requested exercise), grade it
and record the outcome under that id; track whether any exercise matched. -/
def gradeCells (env : AGEnv) (dir baseScratch requested : String) :
    List Cell → List (String × Json) → Bool → List Effect →
    Except String (List (String × Json) × Bool × List Effect)
  | [], acc, found, effs => .ok (acc, found, effs)
  | cell :: rest, acc, found, effs =>
    match alookup cell.metadata "exercise_id" with
    | none => gradeCells env dir baseScratch requested rest acc found effs
    | some (.str exerciseID) =>
      if requested ≠ "" && requested ≠ exerciseID then
        gradeCells env dir baseScratch requested rest acc found effs
      else
        let exerciseDir := dir ++ "/" ++ exerciseID
        match env.dirStat exerciseDir with
        | none => .error ("exercise with id " ++ exerciseID ++ " does not exit")
        | some false => .error (exerciseDir ++ " is not a directory")
        | some true =>
          match GradeExercise env exerciseDir (baseScratch ++ "/" ++ exerciseID) cell.source with
          | .error e => .error ("error grading exercise " ++ exerciseID ++ ": " ++ e)
          | .ok (outcome, effs2) =>
            gradeCells env dir baseScratch requested rest
              (ainsert acc exerciseID (.obj outcome)) true (effs ++ effs2)
    | some _ => .error "exercise_id is not a string"

/-- The result-map assembly at the tail of `Autograder.Grade`: insert the
no-exercise error when no cell matched, then the assignment id, user hash,
submission id and timestamp, in the statement order of the Go code. -/
def assembleFields (entries : List (String × Json)) (found : Bool)
    (requested assignmentID userHash submissionID : String) (now : Int) :
    List (String × Json) :=
  ainsert
    (ainsert
      (ainsert
        (ainsert
          (if found then entries
           else ainsert entries "error"
             (.str ("no exercises found. requested_exercise_id=" ++ requested)))
          "assignment_id" (.str assignmentID))
        "user_hash" (.str userHash))
      "submission_id" (.str submissionID))
    "timestamp" (.num now)

/-- The directory-resolution, scratch-setup and cell-walk tail of
`Autograder.Grade`, after the metadata has been validated. -/
def gradeMain (env : AGEnv) (j : Json)
    (submissionID assignmentID userHash requested : String) :
    Except String (Json × List Effect) := do
  let dir := env.agDir ++ "/" ++ assignmentID
  let _ ← match env.dirStat dir with
    | none => .error ("assignment dir " ++ dir ++ " does not exit")
    | some false => .error (dir ++ " is not a directory")
    | some true => .ok ()
  let n ← match Parse j with
    | .ok n => .ok n
    | .error e => .error ("error parsing the submitted blob as Jupyter notebook: " ++ e)
  let baseScratch := env.scratchRoot ++ "/" ++ submissionID
  let _ ← if env.autoRemove then
      if env.removeOk then .ok () else .error ("error removing " ++ baseScratch)
    else
      if env.scratchExists baseScratch then .error ("scratch dir " ++ baseScratch ++ " already exists")
      else .ok ()
  let _ ← if env.mkdirOk then .ok () else .error ("error making scratch dir " ++ baseScratch)
  let (entries, found, effs) ← gradeCells env dir baseScratch requested n.cells [] false []
  .ok (.obj (assembleFields entries found requested assignmentID userHash submissionID env.now), effs)

/-- The `Autograder.Grade` function: extract and validate the metadata,
resolve the assignment directory, set up the per-submission scratch root,
grade every matching exercise, and assemble the JSON report. -/
def Grade (env : AGEnv) (j : Json) : Except String (Json × List Effect) := do
  let data ← match j with
    | .obj d => .ok d
    | _ => .error "could not parse request as JSON"
  let mv ← match alookup data "metadata" with
    | some v => .ok v
    | none => .error "request did not have .metadata"
  let metadata ← match mv with
    | .obj m => .ok m
    | _ => .error "metadata is not a map"
  let sv ← match alookup metadata "submission_id" with
    | some v => .ok v
    | none => .error "request did not have submission_id"
  let submissionID ← match sv with
    | .str s => .ok s
    | _ => .error "metadata.submission_id is not a string"
  let av ← match alookup metadata "assignment_id" with
    | some v => .ok v
    | none => .error "metadata does not have assignment_id"
  let assignmentID ← match av with
    | .str s => .ok s
    | _ => .error "metadata.assignment_id is not a string"
  let userHash ← match alookup metadata "user_hash" with
    | none => .ok "unknown"
    | some (.str h) => .ok h
    | some _ => .error "metadata.user_hash is not a string"
  gradeMain env j submissionID assignmentID userHash (requestedOf metadata)

/-! ## Upload server (go/uploadserver/uploadserver.go)

The file contains two versions of the package; the one modelled in full here
is the later one (the one that sets the `X-Report-Url` header, lines
591-1489 of the concatenated source).  The earlier version's success
response — a plain-text body and no `X-Report-Url` header — is modelled
separately as `handleUploadLegacyResponse`. -/

/-- An HTTP response as the handler builds it: headers set on the writer, the
implicit status (200 on the first body write unless an error short-circuits),
and the body text. -/
structure HttpResponse where
  status : Nat
  headers : List (String × String)
  body : Src
deriving Repr

/-- Environment for `Server.handleUpload`: request data, configuration and
the effect oracles. -/
structure UpEnv where
  allowCORS : Bool
  origin : Option String
  useOpenID : Bool
  sessionHash : Option String
  method : String
  formFile : Option Json
  uuid : String
  writeOk : Bool
  logToBucket : Bool
  logBucketName : String
  bucketOk : Bool
  gradeLocally : Bool
  postOk : Bool
  reportWriteOk : Bool
  renderedReport : Json → Src
  agEnv : AGEnv
  now : Int

/-- The instantiation of `uploadResultTmpl` at a report URL. -/
def uploadResultHTML (reportURL : String) : Src :=
  ("\n<html>\n<title>Upload completed</title>\n<link rel=\x27stylesheet\x27 type=\x27text/css\x27 href=\x27/static/style.css\x27/>\n<h2>Upload succeeded</h2>\nClick here for the <a href=\x27"
    ++ reportURL ++ "\x27>Report</a>.\n").toList

/-- The tail of `Server.handleUpload` from the `reportURL` computation on:
set the `Content-Type` and `X-Report-Url` headers, optionally log to the
bucket, then either post to the queue and render the upload page (async
mode) or grade locally and write the rendered report. -/
def uploadFinish (env : UpEnv) (headers : List (String × String))
    (data : List (String × Json)) : Except String HttpResponse := do
  let reportURL := "/report/" ++ env.uuid
  let headers := headers ++ [("Content-Type", "text/html; charset=utf-8"), ("X-Report-Url", reportURL)]
  let _ ←
    if env.logToBucket && env.logBucketName ≠ "" then
      if env.bucketOk then .ok () else .error "error writing log to bucket"
    else .ok ()
  if !env.gradeLocally then do
    let _ ← if env.postOk then .ok () else .error "error posting to queue"
    .ok { status := 200, headers := headers, body := uploadResultHTML reportURL }
  else do
    let (report, _) ← match Grade env.agEnv (.obj data) with
      | .ok r => .ok r
      | .error e => .error ("error grading: " ++ e)
    let _ ← if env.reportWriteOk then .ok () else .error "error writing report"
    let _ ←
      if env.logToBucket && env.logBucketName ≠ "" then
        if env.bucketOk then .ok () else .error "error writing log to bucket"
      else .ok ()
    .ok { status := 200, headers := headers, body := env.renderedReport report }

/-- The `Server.handleUpload` handler (later package version).  Returns the
response written on success; an error value stands for the HTTP-error path
taken by the handler wrapper. -/
def handleUpload (env : UpEnv) : Except String HttpResponse := do
  let headers : List (String × String) :=
    if env.allowCORS then
      [("Access-Control-Allow-Origin", (env.origin).getD "*"),
       ("Access-Control-Allow-Credentials", "true"),
       ("Access-Control-Max-Age", "1800"),
       ("Access-Control-Expose-Headers", "X-Report-Url")]
      ++ (if env.method = "OPTIONS" then [("Access-Control-Allow-Methods", "POST")] else [])
    else []
  if env.method = "OPTIONS" then
    .ok { status := 200, headers := headers, body := [] }
  else do
  let userHash ←
    if env.useOpenID then
      match env.sessionHash with
      | some h => .ok h
      | none => .error "401 unauthorized"
    else .ok "unknown"
  let _ ← if env.method = "POST" then .ok () else .error "Unsupported method"
  let j ← match env.formFile with
    | some j => .ok j
    | none => .error "no notebook file in the form"
  let _ ← if env.writeOk then .ok () else .error "error writing uploaded file"
  let data ← match j with
    | .obj d => .ok d
    | _ => .error "could not parse submission as JSON"
  let metadata := match alookup data "metadata" with
    | some (.obj m) => m
    | _ => []
  let metadata := ainsert metadata "submission_id" (.str env.uuid)
  let metadata := ainsert metadata "user_hash" (.str userHash)
  let metadata := ainsert metadata "timestamp" (.num env.now)
  let data := ainsert data "metadata" (.obj metadata)
  uploadFinish env headers data

/-- The success response of the earlier `handleUpload` version (lines
360-443 of the concatenated source): `Content-Type: text/plain`, the body is
exactly the report URL, and no `X-Report-Url` header is set. -/
def handleUploadLegacyResponse (corsOrigin : Option String) (uuid : String) : HttpResponse :=
  { status := 200,
    headers :=
      (match corsOrigin with
       | some o => [("Access-Control-Allow-Origin", o),
                    ("Access-Control-Allow-Methods", "POST"),
                    ("Access-Control-Allow-Credentials", "true")]
       | none => [])
      ++ [("Content-Type", "text/plain"), ("Access-Control-Allow-Methods", "POST")],
    body := ("/report/" ++ uuid).toList }

/-! ## Master-notebook markup scanners (go/notebook/notebook.go)

Every regular expression of notebook.go used by the transformations is
line-anchored (multi-line `^`) or a plain substring test; each is realized
here as an explicit scanner over the character list, with the exact span
semantics of the Go `regexp` calls it models (which piece of text a match
consumes, including trailing-newline runs and the missing-final-newline
corner cases). -/

/-- Indentation class `[ \t]`. -/
def isIndentChar (c : Char) : Bool :=
  c = ' ' || c = '\t'

/-- Drop the `[ \t]*` indent. -/
def dropIndent (s : Src) : Src :=
  s.dropWhile isIndentChar

/-- Drop a run of newlines (`[\n]*`). -/
def dropNLs (s : Src) : Src :=
  s.dropWhile (fun c => c = '\n')

/-- Whether a literal occurs as a contiguous substring. -/
def hasSub (lit : Src) (s : Src) : Bool :=
  (findLitSuffix lit s).isSome

/-- Body of `stripLineMatch`: `line` accumulates the current line, and a
prefix of already-inspected complete lines is re-attached by the `'\n'`
step. -/
def stripLineMatchAux (p : Src → Bool) (line : Src) : Src → Option Src
  | [] => if p line then some [] else none
  | c :: rest =>
    if c = '\n' then
      if p line then some (dropNLs rest)
      else (stripLineMatchAux p [] rest).map (fun t => line ++ '\n' :: t)
    else stripLineMatchAux p (line ++ [c]) rest

/-- Strip the first line satisfying `p` together with its trailing newline
run, as the `(?m)^...[\n]*` strips of notebook.go do (`source[:m[0]] +
source[m[1]:]`).  Returns `none` when no line matches.  When the matching
line is the final one and carries no newline, the preceding newline is kept,
exactly as the index arithmetic on the Go string leaves it. -/
def stripLineMatch (p : Src → Bool) (s : Src) : Option Src :=
  stripLineMatchAux p [] s

/-- Test whether any line satisfies `p` (a `MatchString` against a
line-anchored pattern whose line part suffices). -/
def anyLine (p : Src → Bool) (s : Src) : Bool :=
  (splitNL s).any p

/-- Test whether some non-final line satisfies `p` (for line-anchored
patterns that require a trailing newline, such as `# BEGIN UNITTEST *\n`). -/
def anyLineNL (p : Src → Bool) (s : Src) : Bool :=
  (splitNL s).dropLast.any p

/-- Parse a `#? ?%%<magic>[ \t]+([a-zA-Z][a-zA-Z0-9_]*)[ \t]*` line (after
the `[ \t]*` indent), returning the captured name.  The line must end after
the optional trailing blanks, because the regexes continue with `[\n]*`. -/
def parseMagicNameLine (magic : Src) (line : Src) : Option Src := do
  let s := dropIndent line
  let s := match s with
    | '#' :: ' ' :: r => r
    | '#' :: r => r
    | r => r
  let s ← dropLit magic s
  let sp := s.takeWhile isIndentChar
  if sp.isEmpty then none
  else
    let s := s.dropWhile isIndentChar
    match s with
    | c :: r =>
      if c.isAlpha then
        let nm := r.takeWhile isAlnumU
        let s2 := r.dropWhile isAlnumU
        if (s2.dropWhile isIndentChar).isEmpty then some (c :: nm) else none
      else none
    | [] => none

/-- Body of `findMagicName`, accumulating the current line. -/
def findMagicNameAux (magic : Src) (line : Src) : Src → Option (Src × Src)
  | [] => (parseMagicNameLine magic line).map (fun nm => (nm, ([] : Src)))
  | c :: rest =>
    if c = '\n' then
      match parseMagicNameLine magic line with
      | some nm => some (nm, dropNLs rest)
      | none => findMagicNameAux magic [] rest
    else findMagicNameAux magic (line ++ [c]) rest

/-- Find the first line matching a `%%<magic> <Name>` pattern, returning the
captured name and the text after the match (after the line's trailing
newline run), i.e. the `m[2:3]` group and `source[m[1]:]` of the Go code.
The text before the matching line is discarded by the callers. -/
def findMagicName (magic : Src) (s : Src) : Option (Src × Src) :=
  findMagicNameAux magic [] s

/-- The `solutionMagicRegex` strip: `^[ \t]*%%solution[^\n]*\n` is anchored
at the start of the string (the pattern has no multi-line flag); on a match
the text after the newline is returned. -/
def stripSolutionMagic (s : Src) : Option Src := do
  let t ← dropLit "%%solution".toList (dropIndent s)
  match t.dropWhile (fun c => c ≠ '\n') with
  | '\n' :: r => some r
  | _ => none

/-- Whether a line consists of the given marker (after indent) followed only
by spaces (` *`). -/
def lineIsMarkerSp (marker : Src) (line : Src) : Bool :=
  match dropLit marker (dropIndent line) with
  | some rest => rest.all (fun c => c = ' ')
  | none => false

/-- Whether a line matches one of the two `# BEGIN PROMPT` alternatives.  -/
def lineIsPromptBegin (line : Src) : Bool :=
  lineIsMarkerSp "\x22\x22\x22 # BEGIN PROMPT".toList line
  || lineIsMarkerSp "# BEGIN PROMPT".toList line

/-- Whether a line matches one of the two `# END PROMPT` alternatives. -/
def lineIsPromptEnd (line : Src) : Bool :=
  lineIsMarkerSp "\x22\x22\x22 # END PROMPT".toList line
  || lineIsMarkerSp "# END PROMPT".toList line

/-- Body of `findPromptBeginSplit`: `pre` holds the completed lines before
the current one, `line` accumulates the current line. -/
def fpbAux (pre line : Src) : Src → Option (Src × Src)
  | [] => none
  | c :: rest =>
    if c = '\n' then
      if lineIsPromptBegin line then some (pre, rest)
      else fpbAux (pre ++ line ++ ['\n']) [] rest
    else fpbAux pre (line ++ [c]) rest

/-- Split at the first `promptBeginRegex` match: the text before the match
and the text after it (the match is a whole marker line including its
newline, which the pattern requires). -/
def findPromptBeginSplit (s : Src) : Option (Src × Src) :=
  fpbAux [] [] s

/-- Body of `findPromptEndSplit`: `pre` holds the text before the newline
that precedes the current line, `line` accumulates the current line. -/
def fpeAux (pre line : Src) : Src → Option (Src × Src)
  | [] => none
  | c :: rest =>
    if c = '\n' then
      if lineIsPromptEnd line then some (pre, rest)
      else fpeAux (pre ++ '\n' :: line) [] rest
    else fpeAux pre (line ++ [c]) rest

/-- Split at the first `promptEndRegex` match: the pattern starts with a
newline, so the match runs from the newline before the marker line through
the marker's own newline; returns the text before and after the match.  The
first line cannot match (there is no newline before it). -/
def findPromptEndSplit (s : Src) : Option (Src × Src) :=
  let l0 := s.takeWhile (fun c => c ≠ '\n')
  match s.dropWhile (fun c => c ≠ '\n') with
  | [] => none
  | _ :: rest => fpeAux l0 [] rest

/-- Body of `linesWithPos`, accumulating the current line and its offset. -/
def linesWithPosAux (off : Nat) (line : Src) : Src → List (Nat × Src)
  | [] => [(off, line)]
  | c :: rest =>
    if c = '\n' then (off, line) :: linesWithPosAux (off + line.length + 1) [] rest
    else linesWithPosAux off (line ++ [c]) rest

/-- Offset-annotated line view of a source. -/
def linesWithPos (s : Src) : List (Nat × Src) :=
  linesWithPosAux 0 [] s

/-- All `solutionBeginRegex` matches: for every non-final line of the shape
`([ \t]*)# BEGIN SOLUTION *` (the pattern requires the trailing newline),
the span `[lineStart, lineStart+len(line)+1)` and the indent group. -/
def findAllBeginSolution (s : Src) : List (Nat × Nat × Src) :=
  let ls := linesWithPos s
  (ls.enum.filterMap (fun p =>
    let (o, line) := p.2
    if p.1 + 1 < ls.length && lineIsMarkerSp "# BEGIN SOLUTION".toList line then
      some (o, o + line.length + 1, line.takeWhile isIndentChar)
    else none))

/-- All `solutionEndRegex` matches: for every line whose indent is followed
by `# END SOLUTION`, the span from the line start through the spaces that
follow the marker (the pattern consumes no newline). -/
def findAllEndSolution (s : Src) : List (Nat × Nat) :=
  (linesWithPos s).filterMap (fun p =>
    let (o, line) := p
    let t := dropIndent line
    match dropLit "# END SOLUTION".toList t with
    | some rest =>
      some (o, o + (line.length - t.length) + "# END SOLUTION".length
               + (rest.takeWhile (fun c => c = ' ')).length)
    | none => none)

/-- Closing scan for a triple-backtick fence: among the lines after the
opener, the first line starting with three backticks closes the fence (the
close anchor `^` requires a line start); a line containing three backticks
elsewhere makes the fence pattern fail at this opener, since the fence body
may not contain them. -/
def fenceScanClose : List (Nat × Src) → Option (Nat × List (Nat × Src))
  | [] => none
  | (o2, l2) :: rest2 =>
    if "```".toList.isPrefixOf l2 then some (o2, rest2)
    else if hasSub "```".toList l2 then none
    else fenceScanClose rest2

/-- All `tripleBacktickedRegex` matches, as character spans (fuelled by the
number of lines).  Candidates are lines starting with three backticks; a
candidate whose body would contain a mid-line triple backtick does not
match, and scanning resumes at the next candidate line (no line-start
candidate can precede the offending occurrence, so skipping to the
remaining lines is exact). -/
def findFencesAux : Nat → List (Nat × Src) → List (Nat × Nat)
  | 0, _ => []
  | _ + 1, [] => []
  | fuel + 1, (o, line) :: rest =>
    if "```".toList.isPrefixOf line then
      if hasSub "```".toList (line.drop 3) then findFencesAux fuel rest
      else
        match fenceScanClose rest with
        | some (o2, rest2) => (o, o2 + 3) :: findFencesAux fuel rest2
        | none => findFencesAux fuel rest
    else findFencesAux fuel rest

/-- Spans of all triple-backtick fenced blocks of a source. -/
def findFences (s : Src) : List (Nat × Nat) :=
  findFencesAux (linesWithPos s).length (linesWithPos s)

/-- The text enclosed by a fence span, `source[m[0]+3 : m[1]-3]`. -/
def fenceText (s : Src) (a b : Nat) : Src :=
  (s.drop (a + 3)).take (b - 3 - (a + 3))

/-- The `# ASSIGNMENT METADATA` marker test (`assignmentMetadataRegex`). -/
def assignMetaRE (text : Src) : Bool :=
  anyLine (fun line => "# ASSIGNMENT METADATA".toList.isPrefixOf (dropIndent line)) text

/-- The `# EXERCISE METADATA` marker test (`exerciseMetadataRegex`). -/
def exerciseMetaRE (text : Src) : Bool :=
  anyLine (fun line => "# EXERCISE METADATA".toList.isPrefixOf (dropIndent line)) text

/-- The `hasMetadata` helper of notebook.go. -/
def hasMetadata (re : Src → Bool) (s : Src) : Bool :=
  (findFences s).any (fun m => re (fenceText s m.1 m.2))

/-- Trim indent characters from both ends. -/
def trimSp (s : Src) : Src :=
  ((s.dropWhile isIndentChar).reverse.dropWhile isIndentChar).reverse

/-- Minimal model of the external `gopkg.in/yaml.v2` unmarshalling as the
metadata blocks of this repository use it: one `key: value` mapping per
line, `#` comment lines ignored, all values taken as (optionally
double-quoted) strings.  The library's error path is not modelled; the
notebooks in scope carry well-formed flat mappings. -/
def yamlParse (text : Src) : List (String × Json) :=
  (splitNL text).foldl (fun acc line =>
    let t := trimSp line
    match t with
    | [] => acc
    | c :: _ =>
      if c = '#' then acc
      else
        let key := t.takeWhile (fun c => c ≠ ':')
        match t.dropWhile (fun c => c ≠ ':') with
        | _ :: v =>
          let v := trimSp v
          let v := match v with
            | '\x22' :: r => if r ≠ [] && r.getLast? = some '\x22' then r.dropLast else v
            | _ => v
          ainsert acc (trimSp key).asString (.str v.asString)
        | [] => acc) []

/-- The `extractMetadata` loop body over the fence spans. -/
def extractMetadataAux (re : Src → Bool) (s : Src) :
    List (Nat × Nat) → Option (List (String × Json)) → List Src →
    Option (List (String × Json)) × List Src
  | [], meta, outputs => (meta, outputs)
  | (a, b) :: rest, meta, outputs =>
    let text := fenceText s a b
    let (meta, outputs) :=
      if re text then (some (yamlParse text), outputs)
      else (meta, outputs ++ [(s.drop a).take (b - a)])
    let outputs := match rest with
      | (a2, _) :: _ => outputs ++ [(s.drop b).take (a2 - b)]
      | [] => outputs ++ [s.drop b]
    extractMetadataAux re s rest meta outputs

/-- The `extractMetadata` helper of notebook.go: cut the fenced blocks
matching `re` out of the source and parse the last of them as YAML.  When
the source has no fence at all the Go code joins an empty output list, i.e.
returns the empty string; all callers guard with `hasMetadata`. -/
def extractMetadata (re : Src → Bool) (s : Src) :
    Option (List (String × Json)) × Src :=
  match findFences s with
  | [] => (none, [])
  | (a, b) :: rest =>
    let (meta, outs) := extractMetadataAux re s ((a, b) :: rest) none [s.take a]
    (meta, outs.join)

/-- Natural languages of notebook cells (notebook.go `Language`). -/
inductive Language where
  | english
  | japanese
  | anyLanguage
deriving DecidableEq, Repr

/-- The `Language.String` method. -/
def Language.code : Language → String
  | .english => "en"
  | .japanese => "ja"
  | .anyLanguage => ""

/-- Attempt to match `languageMetadataRegex` (`\*\*lang:([a-z]{2})\*\*`) at
the start of the input, returning the language code and the rest. -/
def parseLangTagAt (s : Src) : Option (String × Src) := do
  let s1 ← dropLit "**lang:".toList s
  match s1 with
  | a :: b :: r =>
    if a.isLower && b.isLower then
      (dropLit "**".toList r).map (fun rest => (String.mk [a, b], rest))
    else none
  | _ => none

/-- Fuelled first-match scan for the language tag. -/
def findLangTagAux : Nat → Src → Option String
  | 0, _ => none
  | _ + 1, [] => none
  | fuel + 1, c :: rest =>
    match parseLangTagAt (c :: rest) with
    | some (code, _) => some code
    | none => findLangTagAux fuel rest

/-- First language tag of a source (`languageMetadataRegex.FindSubmatch`). -/
def findLangTag (s : Src) : Option String :=
  findLangTagAux s.length s

/-- Fuelled removal of every language tag (`ReplaceAllString(s, "")`). -/
def removeLangTagsAux : Nat → Src → Src
  | 0, s => s
  | _ + 1, [] => []
  | fuel + 1, c :: rest =>
    match parseLangTagAt (c :: rest) with
    | some (_, r) => removeLangTagsAux fuel r
    | none => c :: removeLangTagsAux fuel rest

/-- Remove every language tag. -/
def removeLangTags (s : Src) : Src :=
  removeLangTagsAux s.length s

/-- The `Language.filterText` method. -/
def Language.filterText (l : Language) (s : Src) : Src :=
  if l = .anyLanguage then removeLangTags s
  else
    match findLangTag s with
    | none => s
    | some code => if code ≠ l.code then [] else removeLangTags s

/-- Line test for `testMarkerRegex` (`^[ \t]*# TEST[^\n]*`). -/
def lineIsTestMarker (line : Src) : Bool :=
  "# TEST".toList.isPrefixOf (dropIndent line)

/-- Line test for `studentTestRegex`. -/
def lineIsStudentTest (line : Src) : Bool :=
  (parseMagicNameLine "%%studenttest".toList line).isSome

/-- Line test for the `# BEGIN UNITTEST *\n` opener (the pattern requires
the newline, so it is used under `anyLineNL`). -/
def lineIsUnittestBegin (line : Src) : Bool :=
  lineIsMarkerSp "# BEGIN UNITTEST".toList line

/-- The `masterOnlyMarkerRegex` test (`^[ \t]*#+ MASTER ONLY[^\n]*\n?`). -/
def masterOnlyMatch (s : Src) : Bool :=
  anyLine (fun line =>
    let t := dropIndent line
    let hashes := t.takeWhile (fun c => c = '#')
    !hashes.isEmpty && " MASTER ONLY".toList.isPrefixOf (t.drop hashes.length)) s

/-- The `submissionMarkerRegex` test (`(?ms)^[ \t]*%%(submission|solution)`). -/
def submissionMarkerMatch (s : Src) : Bool :=
  anyLine (fun line =>
    "%%submission".toList.isPrefixOf (dropIndent line)
    || "%%solution".toList.isPrefixOf (dropIndent line)) s

/-- The `templateOrReportMarkerRegex` test. -/
def templateOrReportMatch (s : Src) : Bool :=
  anyLine (fun line =>
    "%%template".toList.isPrefixOf (dropIndent line)
    || "%%report".toList.isPrefixOf (dropIndent line)) s
  || hasSub "report(".toList s

/-- The `autotestMarkerRegex` test (`%autotest|autotest\(`). -/
def autotestMatch (s : Src) : Bool :=
  hasSub "%autotest".toList s || hasSub "autotest(".toList s

/-- The two `(?m)` line strips applied to a code cell before classification:
the `# TEST` marker line, then the `%%studenttest` magic line. -/
def strips (s : Src) : Src :=
  let source := match stripLineMatch lineIsTestMarker s with
    | some t => t
    | none => s
  match stripLineMatch lineIsStudentTest source with
  | some t => t
  | none => source

/-- The solution-replacement loop of `CleanForStudent` over the paired
`BEGIN SOLUTION` / `END SOLUTION` spans: emit the prompt (first computing it
from the first begin-marker's indent when none was extracted) and the text
between consecutive pairs.  The Go index arithmetic is reproduced with
clamped list `take`/`drop` (on a well-paired cell the indices are
ordered). -/
def stitchSolutionAux (source : Src) :
    List ((Nat × Nat × Src) × (Nat × Nat)) → Src → List Src
  | [], _ => []
  | [(b, e)] , prompt =>
    let p := if prompt.isEmpty then b.2.2 ++ "...".toList else prompt
    [p, source.drop e.2]
  | (b, e) :: (b2, e2) :: rest, prompt =>
    let p := if prompt.isEmpty then b.2.2 ++ "...".toList else prompt
    p :: ((source.drop e.2).take (b2.1 - e.2))
      :: stitchSolutionAux source ((b2, e2) :: rest) p

/-- The `CleanForStudent` function of notebook.go.  `none` stands for a
dropped cell (the Go code returns a nil pointer). -/
def CleanForStudent (cell : Cell) (assignmentMetadata exerciseMetadata : List (String × Json))
    (lang : Language) : Except String (Option Cell) :=
  if cell.type = "markdown" then
    if masterOnlyMatch cell.source then .ok none
    else
      let cell1 : Cell :=
        if hasMetadata assignMetaRE cell.source then
          { type := cell.type, metadata := [], outputs := none,
            source := (extractMetadata assignMetaRE cell.source).2 }
        else cell
      let cell2 : Cell :=
        if hasMetadata exerciseMetaRE cell1.source then
          { type := cell1.type, metadata := [], outputs := none,
            source := (extractMetadata exerciseMetaRE cell1.source).2 }
        else cell1
      .ok (some cell2)
  else if cell.type ≠ "code" then .ok (some cell)
  else
    let source := strips cell.source
    if (findMagicName "%%inlinetest".toList source).isSome then .ok none
    else
      match stripSolutionMagic source with
      | some body => do
        let source := body
        let (prompt, source) ←
          match findPromptBeginSplit source with
          | none => .ok (([] : Src), source)
          | some (b1, a1) =>
            match findPromptEndSplit source with
            | none => .error "BEGIN PROMPT has no matching END PROMPT"
            | some (b2, a2) =>
              let mbeg0 := b1.length
              let mbeg1 := source.length - a1.length
              let mend0 := b2.length
              let mend1 := source.length - a2.length
              if mend1 < mbeg0 then .error "END PROMPT is before BEGIN  PROMPT"
              else .ok ((source.drop mbeg1).take (mend0 - mbeg1), b1 ++ a2)
        match findAllBeginSolution source with
        | [] =>
          .ok (some { type := "code", metadata := exerciseMetadata, outputs := none,
                      source := "...".toList })
        | (b0 :: _) =>
          let mends := findAllEndSolution source
          if (findAllBeginSolution source).length ≠ mends.length then
            .error "cell has mismatched number of BEGIN SOLUTION and END SOLUTION"
          else
            .ok (some { type := "code", metadata := exerciseMetadata, outputs := none,
                        source := source.take b0.1
                          ++ (stitchSolutionAux source ((findAllBeginSolution source).zip mends) prompt).join })
      | none =>
        if anyLineNL lineIsUnittestBegin source || autotestMatch source
           || submissionMarkerMatch source || templateOrReportMatch source
           || masterOnlyMatch source then
          .ok none
        else
          .ok (some { type := "code", metadata := [], outputs := none, source := source })

/-- State threaded through the `ToStudent` cell walk: the accumulated
assignment metadata and the exercise metadata attached to subsequent
solution cells (a Go nil map conflated with the empty list). -/
structure ToStudentState where
  assignMeta : List (String × Json)
  exMeta : List (String × Json)

/-- Merge one metadata table into another (`for k, v := range m { dst[k] = v }`). -/
def mergeMeta (dst m : List (String × Json)) : List (String × Json) :=
  m.foldl (fun a p => ainsert a p.1 p.2) dst

/-- The cell-mapping function of `Notebook.ToStudent`.  Both metadata
extractions read the original `cell.Source`, as the Go code does. -/
def toStudentCell (lang : Language) (st : ToStudentState) (cell : Cell) :
    Except String (List Cell × ToStudentState) :=
  if cell.type = "markdown" then
    let (st, source) :=
      if hasMetadata assignMetaRE cell.source then
        let (m, src) := extractMetadata assignMetaRE cell.source
        ({ st with assignMeta := mergeMeta st.assignMeta (m.getD []) }, src)
      else (st, cell.source)
    let (st, source) :=
      if hasMetadata exerciseMetaRE cell.source then
        let (m, src) := extractMetadata exerciseMetaRE cell.source
        ({ st with exMeta := m.getD [] }, src)
      else (st, source)
    if masterOnlyMatch source then .ok ([], st)
    else
      let source := lang.filterText source
      if source.isEmpty then .ok ([], st)
      else .ok ([{ type := cell.type, metadata := [], outputs := none, source := source }], st)
  else if cell.type ≠ "code" then
    .ok ([{ type := cell.type, metadata := [], outputs := none, source := cell.source }], st)
  else
    let source := strips cell.source
    if (findMagicName "%%inlinetest".toList source).isSome then .ok ([], st)
    else if (stripSolutionMagic source).isSome then
      match CleanForStudent cell st.assignMeta st.exMeta lang with
      | .error e => .error e
      | .ok (some c) => .ok ([c], st)
      | .ok none => .ok ([], st)
        -- A nil here would make the Go code emit a nil cell pointer; it is
        -- unreachable because CleanForStudent performs the same strips and
        -- guard checks that led to this branch.
    else if anyLineNL lineIsUnittestBegin source || autotestMatch source
            || submissionMarkerMatch source || templateOrReportMatch source
            || masterOnlyMatch source then
      .ok ([], st)
    else
      .ok ([{ type := "code", metadata := [], outputs := none, source := source }], st)

/-- One step of the `ToStudent` cell walk: transform the cell under the
running state and append the produced cells. -/
def toStudentStep (lang : Language) (acc : List Cell × ToStudentState) (cell : Cell) :
    Except String (List Cell × ToStudentState) := do
  let (cs, st) ← toStudentCell lang acc.2 cell
  pure (acc.1 ++ cs, st)

/-- The `Notebook.ToStudent` transformation.  When the input notebook has a
nil metadata map and the walk accumulated assignment metadata, the Go code
would panic storing into the nil map; the model leaves the metadata `none`
(no claim below reads notebook metadata). -/
def ToStudent (n : Notebook) (lang : Language) : Except String Notebook := do
  let (outCells, st) ← n.cells.foldlM (toStudentStep lang)
    ([], { assignMeta := [], exMeta := [] })
  let metadata := match n.metadata with
    | some m => some (mergeMeta m st.assignMeta)
    | none => none
  pure { nbformat := n.nbformat, nbformatMinor := n.nbformatMinor,
         metadata := metadata, cells := outCells }

/-- Freedom from every master-markup token named by the specification for
the student-notebook invariant. -/
def tokenFree (s : Src) : Bool :=
  !(hasSub "%%solution".toList s) && !(hasSub "%%inlinetest".toList s)
  && !(hasSub "# BEGIN UNITTEST".toList s) && !(hasSub "%%submission".toList s)
  && !(hasSub "%%template".toList s) && !(hasSub "# MASTER ONLY".toList s)
  && !(hasSub "BEGIN SOLUTION".toList s) && !(hasSub "END SOLUTION".toList s)

/-- Master cells covered by the corrected student-notebook invariant:
markdown and non-code cells must already be token-free (the transformation
passes their text through), with no metadata fence and no language tag
(whose excision re-joins surrounding text); code cells are either token-free
or solution cells whose magic strips cleanly and whose body is token-free
with no prompt markers. -/
def wfCell (c : Cell) : Bool :=
  if c.type = "markdown" then
    tokenFree c.source && !(hasMetadata assignMetaRE c.source)
    && !(hasMetadata exerciseMetaRE c.source) && (findLangTag c.source).isNone
  else if c.type = "code" then
    tokenFree c.source
    || (match stripSolutionMagic (strips c.source) with
        | some body => tokenFree body && !(hasSub "# BEGIN PROMPT".toList body)
        | none => false)
  else tokenFree c.source

/-! ### ToAutograder -/

/-- Parse a `%%template <Name>` line: unlike the other magics the pattern
requires the newline to follow the name immediately (`templateRegex`). -/
def parseTemplateLine (line : Src) : Option Src := do
  let t ← dropLit "%%template".toList (dropIndent line)
  let sp := t.takeWhile isIndentChar
  if sp.isEmpty then none
  else
    match t.dropWhile isIndentChar with
    | c :: r =>
      if c.isAlpha then
        let nm := r.takeWhile isAlnumU
        if (r.dropWhile isAlnumU).isEmpty then some (c :: nm) else none
      else none
    | [] => none

/-- Body of `findTemplateName`, accumulating the current line. -/
def findTemplateNameAux (line : Src) : Src → Option (Src × Src)
  | [] => none
  | c :: rest =>
    if c = '\n' then
      match parseTemplateLine line with
      | some nm => some (nm, rest)
      | none => findTemplateNameAux [] rest
    else findTemplateNameAux (line ++ [c]) rest

/-- Find the first `%%template <Name>` line (which must carry a trailing
newline); returns the name and the text after that single newline
(`source[m[1]:]`). -/
def findTemplateName (s : Src) : Option (Src × Src) :=
  findTemplateNameAux [] s

/-- First `# BEGIN UNITTEST` match span (the pattern requires the trailing
newline, so the marker must be a non-final line). -/
def findFirstUB (s : Src) : Option (Nat × Nat) :=
  let ls := linesWithPos s
  (ls.enum.findSome? (fun p =>
    if p.1 + 1 < ls.length && lineIsMarkerSp "# BEGIN UNITTEST".toList p.2.2 then
      some (p.2.1, p.2.1 + p.2.2.length + 1)
    else none))

/-- First `# END UNITTEST` match span (`^[ \t]*# END UNITTEST *`, consuming
no newline). -/
def findFirstUE (s : Src) : Option (Nat × Nat) :=
  (linesWithPos s).findSome? (fun p =>
    let (o, line) := p
    let t := dropIndent line
    match dropLit "# END UNITTEST".toList t with
    | some rest =>
      some (o, o + (line.length - t.length) + "# END UNITTEST".length
               + (rest.takeWhile (fun c => c = ' ')).length)
    | none => none)

/-- Parse a `class <Name>(unittest.TestCase):` line (`testClassRegex`). -/
def parseClassLine (line : Src) : Option Src := do
  let t ← dropLit "class ".toList (dropIndent line)
  let nm := t.takeWhile isAlnumU
  if "(unittest.TestCase):".toList.isPrefixOf (t.drop nm.length) then some nm else none

/-- Parse a commented-out import line
(`^[ \t]*#[ \t]*import[ \t]+([a-zA-Z][a-zA-Z0-9_]*)[ \t]*$`). -/
def parseImportLine (line : Src) : Option Src := do
  match dropIndent line with
  | '#' :: r =>
    let r := r.dropWhile isIndentChar
    let r ← dropLit "import".toList r
    let sp := r.takeWhile isIndentChar
    if sp.isEmpty then none
    else
      match r.dropWhile isIndentChar with
      | c :: rest =>
        if c.isAlpha then
          let nm := rest.takeWhile isAlnumU
          if ((rest.dropWhile isAlnumU).dropWhile isIndentChar).isEmpty then some (c :: nm)
          else none
        else none
      | [] => none
  | _ => none

/-- Fuelled replacement of every `"""` by `\"\"\"`
(`strings.Replace(s, …, -1)`). -/
def replaceTripleQAux : Nat → Src → Src
  | 0, s => s
  | _ + 1, [] => []
  | fuel + 1, c :: rest =>
    if c = '\x22' then
      match rest with
      | '\x22' :: '\x22' :: r =>
        '\\' :: '\x22' :: '\\' :: '\x22' :: '\\' :: '\x22' :: replaceTripleQAux fuel r
      | _ => c :: replaceTripleQAux fuel rest
    else c :: replaceTripleQAux fuel rest

/-- Replace every inner triple quote by its escaped form. -/
def replaceTripleQ (s : Src) : Src :=
  replaceTripleQAux s.length s

/-- The `cloneMetadata` helper: copy a metadata table and set the extra
bindings. -/
def cloneMetadata (m : List (String × Json)) (extras : List (String × Json)) :
    List (String × Json) :=
  extras.foldl (fun a p => ainsert a p.1 p.2) m

/-- Join pieces with a separator (`strings.Join`). -/
def joinWith (sep : Src) : List Src → Src
  | [] => []
  | [x] => x
  | x :: xs => x ++ sep ++ joinWith sep xs

/-- The fixed wrapper emitted around a `%%template` body. -/
def templateWrapper (body : Src) : Src :=
  ("\nimport jinja2\nimport json\nimport sys\nimport submission_source\nimport pygments\nfrom pygments import lexers\nfrom pygments import formatters\n\ntemplate = \x22\x22\x22").toList
  ++ body
  ++ ("\x22\x22\x22\n\nif __name__ == \x27__main__\x27:\n  input = sys.stdin.read()\n  data = json.loads(input)\n  source = submission_source.source\n  formatted_source = pygments.highlight(source, lexers.PythonLexer(), formatters.HtmlFormatter())\n  tmpl = jinja2.Template(template)\n  sys.stdout.write(tmpl.render(results=data[\x27results\x27], formatted_source=formatted_source, logs=data[\x27logs\x27]))\n").toList

/-- State threaded through the `ToAutograder` cell walk.  `exerciseContext`
is reset at each exercise-metadata block and appended to by non-solution
code cells, mirroring the Go code, which accumulates it but never reads
it. -/
structure ToAGState where
  assignMeta : List (String × Json)
  assignID : String
  exID : String
  exMeta : List (String × Json)
  globalContext : List Cell
  exerciseContext : List Cell

/-- The markdown metadata handling of the `ToAutograder` cell walk. -/
def toAGMarkdown (st : ToAGState) (cell : Cell) : Except String ToAGState := do
  let st ←
    if hasMetadata assignMetaRE cell.source then do
      let (m, _) := extractMetadata assignMetaRE cell.source
      let m := m.getD []
      let assignID ← match alookup m "assignment_id" with
        | some (.str id) => .ok id
        | some _ => .error "assignment_id is not a string"
        | none => .ok st.assignID
      .ok { st with assignMeta := mergeMeta st.assignMeta m, assignID := assignID }
    else .ok st
  if hasMetadata exerciseMetaRE cell.source then do
    let (m, _) := extractMetadata exerciseMetaRE cell.source
    let m := m.getD []
    let exID ← match alookup m "exercise_id" with
      | some (.str id) => .ok id
      | some _ => .error "exercise_id is not a string"
      | none => .ok st.exID
    .ok { st with exMeta := m, exID := exID, exerciseContext := [] }
  else .ok st

/-- The cell-mapping function of `Notebook.ToAutograder`. -/
def toAGCell (st : ToAGState) (cell : Cell) : Except String (List Cell × ToAGState) := do
  let st ← if cell.type = "markdown" then toAGMarkdown st cell else .ok st
  if cell.type ≠ "code" then .ok ([], st)
  else
    let source := cell.source
    match findMagicName "%%inlinetest".toList source with
    | some (name, after) => do
      let parts ← st.globalContext.foldlM (fun (acc : List Src) c => do
        match ← CleanForStudent c st.assignMeta st.exMeta .anyLanguage with
        | some clean => pure (acc ++ [clean.source])
        | none => pure acc) []
      .ok ([{ type := "code",
              metadata := cloneMetadata st.exMeta
                [("filename", .str (name.asString ++ "_context.py")),
                 ("assignment_id", .str st.assignID)],
              outputs := none,
              source := joinWith ['\n'] parts ++ ['\n'] },
            { type := "code",
              metadata := cloneMetadata st.exMeta
                [("filename", .str (name.asString ++ "_inline.py")),
                 ("assignment_id", .str st.assignID)],
              outputs := none,
              source := after ++ ['\n'] }], st)
    | none =>
      match findFirstUB source with
      | some (ub0, ub1) => do
        let (ue0, ue1) ← match findFirstUE source with
          | some sp => .ok sp
          | none => .error "missing END UNITTEST"
        let _ ← if ue1 < ub0 then .error "END UNITTEST before BEGIN UNITTEST" else .ok ()
        let text := (source.drop ub1).take (ue0 - ub1)
        let filename ← match (splitNL text).findSome? parseClassLine with
          | some nm => .ok (nm.asString ++ ".py")
          | none => .error "could not detect the test name for unittest"
        let imports := (splitNL text).filterMap parseImportLine
        let text := (imports.map (fun nm => "import ".toList ++ nm ++ ['\n'])).join ++ text
        .ok ([{ type := "code",
                metadata := cloneMetadata st.exMeta
                  [("filename", .str filename), ("assignment_id", .str st.assignID)],
                outputs := none, source := text }], st)
      | none =>
        if (stripSolutionMagic source).isSome then do
          let clean ← match ← CleanForStudent cell st.assignMeta st.exMeta .anyLanguage with
            | some c => pure c
            | none => .error "nil clean cell"
              -- Unreachable: CleanForStudent takes its solution branch here;
              -- the Go code would dereference a nil pointer otherwise.
          .ok ([{ type := "code",
                  metadata := cloneMetadata st.exMeta
                    [("filename", .str "empty_source.py"), ("assignment_id", .str st.assignID)],
                  outputs := none,
                  source := "source = \x22\x22\x22".toList ++ replaceTripleQ clean.source
                    ++ "\x22\x22\x22".toList },
                { type := "code",
                  metadata := cloneMetadata st.exMeta
                    [("filename", .str "empty_submission.py"), ("assignment_id", .str st.assignID)],
                  outputs := none, source := clean.source }], st)
        else
          let st :=
            if st.exID = "" then { st with globalContext := st.globalContext ++ [cell] }
            else { st with exerciseContext := st.exerciseContext ++ [cell] }
          match findTemplateName source with
          | some (name, after) =>
            .ok ([{ type := "code",
                    metadata := cloneMetadata st.exMeta
                      [("filename", .str (name.asString ++ ".py")),
                       ("assignment_id", .str st.assignID)],
                    outputs := none, source := templateWrapper after }], st)
          | none => .ok ([], st)

/-- The `Notebook.ToAutograder` transformation. -/
def ToAutograder (n : Notebook) : Except String Notebook := do
  let (outCells, st) ← n.cells.foldlM (fun (acc : List Cell × ToAGState) cell => do
    let (cs, st) ← toAGCell acc.2 cell
    pure (acc.1 ++ cs, st))
    ([], { assignMeta := [], assignID := "", exID := "", exMeta := [],
           globalContext := [], exerciseContext := [] })
  pure { nbformat := n.nbformat, nbformatMinor := n.nbformatMinor,
         metadata := some st.assignMeta, cells := outCells }

/-! ## Concrete instances used by the claim theorems -/

/-- Fields of a JSON object, empty for the other constructors. -/
def objFields : Json → List (String × Json)
  | .obj f => f
  | _ => []

/-- Whether an `Except` value is a success. -/
def exOk {ε α : Type} : Except ε α → Bool
  | .ok _ => true
  | .error _ => false

/-- A captured inline-test output that both trips the wall-clock kill
detector and carries a FAIL marker with a message. -/
def c7cexOut : Src :=
  ("While executing inline test: FAIL\x7b\x7bx\x7d\x7d\nrun time >= time limit (10s). Killing it").toList

/-- A captured inline-test output that trips only the wall-clock kill
detector. -/
def c7wOut : Src :=
  ("run time >= time limit (10s). Killing it").toList

/-- A captured inline-test output with no outcome marker at all. -/
def c10wOut : Src :=
  ("all fine, nothing printed markers\n").toList

/-- An autograder environment whose exercise directory carries an
`empty_submission.py` equal to the prompt. -/
def envW : AGEnv :=
  { agDir := "/ag", scratchRoot := "/tmp/scr", includeLogs := false,
    autoRemove := false, removeOk := true, mkdirOk := true,
    scratchExists := fun _ => false, dirStat := fun _ => some true,
    readFile := fun p =>
      if p = "/ag/hw1/ex1/empty_submission.py" then some "x = ...\n".toList else none,
    scratchOk := fun _ => true, listDir := fun _ => some [],
    runUnit := fun _ _ => .exited true [], runInline := fun _ _ => .exited true [],
    runTemplate := fun _ _ => (none, []), highlight := fun _ => none, now := 0 }

/-- A metadata table carrying a submission and assignment id. -/
def m1 : List (String × Json) :=
  [("submission_id", .str "s1"), ("assignment_id", .str "hw1")]

/-- Top-level data of a notebook with no exercise cells. -/
def data1 : List (String × Json) :=
  [("metadata", .obj m1)]

/-- The report object `Grade envW (.obj data1)` produces. -/
def R1 : Json :=
  match Grade envW (.obj data1) with
  | .ok r => r.1
  | .error _ => .null

/-- The notebook JSON used to witness the round-trip claim. -/
def j3 : Json :=
  .obj [("cells", .arr [.obj [("cell_type", .str "code"), ("source", .str "a\nb")]])]

/-- The parse of `j3`. -/
def nb3 : Notebook :=
  { nbformat := 0, nbformatMinor := 0, metadata := none,
    cells := [{ type := "code", metadata := [], outputs := none, source := "a\nb".toList }] }

/-- The parse of the empty JSON object: a notebook with no cells. -/
def nbEmpty : Notebook :=
  { nbformat := 0, nbformatMinor := 0, metadata := none, cells := [] }

/-- A notebook JSON with an unknown top-level key and an unknown per-cell
key. -/
def j4 : Json :=
  .obj [("nbformat", .num 4), ("extra", .num 7),
        ("cells", .arr [.obj [("cell_type", .str "code"), ("source", .str ""),
                              ("custom", .num 1)]])]

/-- The parse of `j4`: the unknown keys survive only in the raw data, which
the model (like the emitter) discards. -/
def nb4 : Notebook :=
  { nbformat := 4, nbformatMinor := 0, metadata := none,
    cells := [{ type := "code", metadata := [], outputs := none, source := [] }] }

/-- Markdown cell carrying the exercise metadata block for `ex1`. -/
def mdCellC2 : Cell :=
  { type := "markdown", metadata := [], outputs := none,
    source := ("```\n# EXERCISE METADATA\nexercise_id: ex1\n```\n").toList }

/-- The exercise-context code cell of `ex1` (between the metadata block and
the solution cell). -/
def ctxCellC2 : Cell :=
  { type := "code", metadata := [], outputs := none, source := "x = 1\n".toList }

/-- The solution cell of `ex1`. -/
def solCellC2 : Cell :=
  { type := "code", metadata := [], outputs := none, source := "%%solution\ny = 2\n".toList }

/-- The inline-test cell of `ex1`. -/
def inlCellC2 : Cell :=
  { type := "code", metadata := [], outputs := none,
    source := "%%inlinetest Test1\nassert x == 1\n".toList }

/-- A minimal master notebook with one exercise: metadata block, an
exercise-context cell, the solution, and an inline test. -/
def nbC2 : Notebook :=
  { nbformat := 4, nbformatMinor := 2, metadata := some [],
    cells := [mdCellC2, ctxCellC2, solCellC2, inlCellC2] }

/-- The autograder notebook the code produces for `nbC2`. -/
def nbC2out : Notebook :=
  match ToAutograder nbC2 with
  | .ok nb => nb
  | .error _ => nbEmpty

/-- The default cell used for indexing. -/
def cellDflt : Cell :=
  { type := "", metadata := [], outputs := none, source := [] }

/-- A master notebook whose markdown cell mentions a solution magic and
whose code cell carries solution markers without the `%%solution` magic. -/
def nbC5cex : Notebook :=
  { nbformat := 4, nbformatMinor := 2, metadata := some [],
    cells := [{ type := "markdown", metadata := [], outputs := none,
                source := "%%solution".toList },
              { type := "code", metadata := [], outputs := none,
                source := "# BEGIN SOLUTION\nx = 1\n# END SOLUTION\n".toList }] }

/-- The student notebook the code produces for `nbC5cex`. -/
def nbC5cexOut : Notebook :=
  match ToStudent nbC5cex .anyLanguage with
  | .ok nb => nb
  | .error _ => nbEmpty

/-- A well-formed master notebook for the corrected student invariant: a
plain markdown cell, a plain code cell, and a prompt-less solution cell. -/
def nbC5w : Notebook :=
  { nbformat := 4, nbformatMinor := 2, metadata := some [],
    cells := [{ type := "markdown", metadata := [], outputs := none, source := "hello\n".toList },
              { type := "code", metadata := [], outputs := none, source := "x = 1\n".toList },
              { type := "code", metadata := [], outputs := none,
                source := "%%solution\ny = 2\n".toList }] }

/-- The student notebook the code produces for `nbC5w`. -/
def nbC5wOut : Notebook :=
  match ToStudent nbC5w .anyLanguage with
  | .ok nb => nb
  | .error _ => nbEmpty

/-- An upload-server environment: asynchronous mode, no CORS, no
authentication, a well-formed one-cell upload. -/
def env9 : UpEnv :=
  { allowCORS := false, origin := none, useOpenID := false, sessionHash := none,
    method := "POST", formFile := some (.obj []), uuid := "u1", writeOk := true,
    logToBucket := false, logBucketName := "", bucketOk := true,
    gradeLocally := false, postOk := true, reportWriteOk := true,
    renderedReport := fun _ => [], agEnv := envW, now := 7 }

/-- The response `handleUpload env9` produces. -/
def r9 : HttpResponse :=
  match handleUpload env9 with
  | .ok r => r
  | .error _ => { status := 0, headers := [], body := [] }

/-! ## Association-list lemmas -/

theorem alookup_map_set {α : Type} (l : List (String × α)) (k : String) (v : α)
    (h : l.any (fun p => p.1 = k) = true) :
    alookup (l.map (fun p => if p.1 = k then (k, v) else p)) k = some v := by
  induction l with
  | nil => simp at h
  | cons p rest ih =>
    obtain ⟨a, b⟩ := p
    simp only [List.map_cons]
    by_cases hp : a = k
    · subst hp
      have hf : (if (a, b).1 = a then (a, v) else (a, b)) = (a, v) := if_pos rfl
      rw [hf]
      simp [alookup]
    · have hf : (if (a, b).1 = k then (k, v) else (a, b)) = (a, b) := if_neg hp
      rw [hf]
      simp only [alookup, if_neg hp]
      apply ih
      simp only [List.any_cons, Bool.or_eq_true, decide_eq_true_eq] at h
      rcases h with h | h
      · exact absurd h hp
      · simpa using h

theorem alookup_append_nf {α : Type} (l1 l2 : List (String × α)) (k : String)
    (h : l1.any (fun p => p.1 = k) = false) :
    alookup (l1 ++ l2) k = alookup l2 k := by
  induction l1 with
  | nil => simp
  | cons p rest ih =>
    obtain ⟨a, b⟩ := p
    simp only [List.any_cons, Bool.or_eq_false_iff, decide_eq_false_iff_not] at h
    simp only [List.cons_append, alookup, if_neg h.1]
    exact ih (by simpa using h.2)

theorem alookup_ainsert_self {α : Type} (l : List (String × α)) (k : String) (v : α) :
    alookup (ainsert l k v) k = some v := by
  unfold ainsert
  split
  · exact alookup_map_set l k v (by assumption)
  · rename_i h
    have h' : (l.any fun p => decide (p.1 = k)) = false := by
      cases hx : l.any fun p => decide (p.1 = k)
      · rfl
      · exact absurd hx h
    rw [alookup_append_nf l [(k, v)] k h']
    simp [alookup]

theorem alookup_map_set_ne {α : Type} (l : List (String × α)) (k : String) (v : α)
    (k' : String) (hne : k' ≠ k) :
    alookup (l.map (fun p => if p.1 = k then (k, v) else p)) k' = alookup l k' := by
  induction l with
  | nil => simp
  | cons p rest ih =>
    obtain ⟨a, b⟩ := p
    simp only [List.map_cons]
    by_cases hp : a = k
    · subst hp
      have hf : (if (a, b).1 = a then (a, v) else (a, b)) = (a, v) := if_pos rfl
      rw [hf]
      simp only [alookup]
      rw [if_neg (fun hh : a = k' => hne hh.symm), if_neg (fun hh : a = k' => hne hh.symm)]
      exact ih
    · have hf : (if (a, b).1 = k then (k, v) else (a, b)) = (a, b) := if_neg hp
      rw [hf]
      simp only [alookup]
      by_cases ha : a = k'
      · simp [ha]
      · rw [if_neg ha, if_neg ha]
        exact ih

theorem alookup_append_single_ne {α : Type} (l : List (String × α)) (k : String) (v : α)
    (k' : String) (hne : k' ≠ k) :
    alookup (l ++ [(k, v)]) k' = alookup l k' := by
  induction l with
  | nil =>
    simp only [List.nil_append, alookup]
    rw [if_neg (fun hh : k = k' => hne hh.symm)]
  | cons p rest ih =>
    obtain ⟨a, b⟩ := p
    simp only [List.cons_append, alookup]
    by_cases ha : a = k'
    · simp [ha]
    · rw [if_neg ha, if_neg ha]
      exact ih

theorem alookup_ainsert_ne {α : Type} (l : List (String × α)) (k : String) (v : α)
    (k' : String) (hne : k' ≠ k) :
    alookup (ainsert l k v) k' = alookup l k' := by
  unfold ainsert
  split
  · exact alookup_map_set_ne l k v k' hne
  · exact alookup_append_single_ne l k v k' hne

/-! ## Claim C10 -/

/-- Claim C10: for every inline-test run whose captured output contains no
`(OK|ERROR|FAIL)` marker at all, `RunInlineTest` sets the outcome's `passed`
field to `false`, even when the sandboxed process exited with status
zero. -/
theorem C10_inline_no_marker_not_passed (exitZero : Bool) (out : Src)
    (h : inlineMatches out = []) :
    alookup (inlineOutcome exitZero out) "passed" = some (.bool false) := by
  simp only [inlineOutcome, h, List.isEmpty_nil, if_true, List.foldl_nil]
  exact alookup_ainsert_self _ _ _

/-- Witness for C10 at a concrete output with exit status zero. -/
theorem C10_witness :
    inlineMatches c10wOut = [] ∧
    alookup (inlineOutcome true c10wOut) "passed" = some (.bool false) :=
  ⟨rfl, C10_inline_no_marker_not_passed true c10wOut rfl⟩

/-! ## Claim C6 -/

theorem testPrefixed_ne_passed (a : Src) : ("test".toList ++ a).asString ≠ "passed" := by
  intro h
  have h2 : "test".toList ++ a = "passed".toList := congrArg String.toList h
  have h3 : (some 't' : Option Char) = some 'p' := congrArg List.head? h2
  exact absurd h3 (by decide)

theorem parseOutcomeAt_ne_passed {s : Src} {g : String × String × String × String} {r : Src}
    (h : parseOutcomeAt s = some (g, r)) : g.1 ≠ "passed" := by
  unfold parseOutcomeAt at h
  repeat' split at h
  all_goals try exact Option.noConfusion h
  all_goals
    (have hp : _ = g := congrArg Prod.fst (Option.some.inj h)
     rw [← hp]
     exact testPrefixed_ne_passed _)

theorem outcomeMatchesAux_ne_passed (fuel : Nat) :
    ∀ (s : Src), ∀ m ∈ outcomeMatchesAux fuel s, m.1 ≠ "passed" := by
  induction fuel with
  | zero => intro s m hm; simp [outcomeMatchesAux] at hm
  | succ fuel ih =>
    intro s m hm
    cases s with
    | nil => simp [outcomeMatchesAux] at hm
    | cons c rest =>
      rw [outcomeMatchesAux] at hm
      cases hp : parseOutcomeAt (c :: rest) with
      | none =>
        rw [hp] at hm
        exact ih rest m hm
      | some gr =>
        rw [hp] at hm
        rcases List.mem_cons.mp hm with hm | hm
        · subst hm
          exact parseOutcomeAt_ne_passed hp
        · exact ih gr.2 m hm

theorem outcomeMatches_ne_passed (out : Src) :
    ∀ m ∈ outcomeMatches out, m.1 ≠ "passed" :=
  outcomeMatchesAux_ne_passed out.length out

theorem unitFold_passed (ms : List (String × String × String × String))
    (hne : ∀ m ∈ ms, m.1 ≠ "passed") :
    ∀ (t : List (String × Json)) (b0 : Bool),
      alookup t "passed" = some (.bool b0) →
      alookup (ms.foldl unitStep t) "passed"
        = some (.bool (b0 && ms.all (fun m => m.2.2.2 == "ok"))) := by
  induction ms with
  | nil => intro t b0 hp; simpa using hp
  | cons m rest ih =>
    intro t b0 hp
    have hmne : m.1 ≠ "passed" := hne m (List.mem_cons_self m rest)
    have hrest : ∀ x ∈ rest, x.1 ≠ "passed" :=
      fun x hx => hne x (List.mem_cons_of_mem m hx)
    simp only [List.foldl_cons, List.all_cons]
    by_cases hok : m.2.2.2 = "ok"
    · have hstep : unitStep t m = ainsert t m.1 (.bool true) := by
        simp [unitStep, hok]
      rw [hstep]
      have hp' : alookup (ainsert t m.1 (.bool true)) "passed" = some (.bool b0) := by
        rw [alookup_ainsert_ne _ _ _ _ (fun hh => hmne hh.symm)]
        exact hp
      rw [ih hrest _ _ hp']
      simp [hok]
    · have hstep : unitStep t m = ainsert (ainsert t m.1 (.bool false)) "passed" (.bool false) := by
        simp [unitStep, hok]
      rw [hstep]
      have hp' : alookup (ainsert (ainsert t m.1 (.bool false)) "passed" (.bool false)) "passed"
          = some (.bool false) := alookup_ainsert_self _ _ _
      rw [ih hrest _ _ hp']
      simp [hok]

theorem unitFold_bool_stable (ms : List (String × String × String × String)) :
    ∀ (t : List (String × Json)) (k : String),
      (∃ b, alookup t k = some (.bool b)) →
      ∃ b, alookup (ms.foldl unitStep t) k = some (.bool b) := by
  induction ms with
  | nil => intro t k h; simpa using h
  | cons m rest ih =>
    intro t k h
    simp only [List.foldl_cons]
    apply ih
    unfold unitStep
    split
    · by_cases hk : k = m.1
      · subst hk
        exact ⟨true, alookup_ainsert_self _ _ _⟩
      · rw [alookup_ainsert_ne _ _ _ _ hk]
        exact h
    · by_cases hk2 : k = "passed"
      · subst hk2
        exact ⟨false, alookup_ainsert_self _ _ _⟩
      · rw [alookup_ainsert_ne _ _ _ _ hk2]
        by_cases hk : k = m.1
        · subst hk
          exact ⟨false, alookup_ainsert_self _ _ _⟩
        · rw [alookup_ainsert_ne _ _ _ _ hk]
          exact h

theorem unitFold_method (ms : List (String × String × String × String))
    (hne : ∀ m ∈ ms, m.1 ≠ "passed") :
    ∀ (t : List (String × Json)), ∀ m ∈ ms,
      ∃ b, alookup (ms.foldl unitStep t) m.1 = some (.bool b) := by
  induction ms with
  | nil => intro t m hm; simp at hm
  | cons m0 rest ih =>
    intro t m hm
    simp only [List.foldl_cons]
    rcases List.mem_cons.mp hm with hm | hm
    · subst hm
      apply unitFold_bool_stable
      unfold unitStep
      split
      · exact ⟨true, alookup_ainsert_self _ _ _⟩
      · have hmne : m.1 ≠ "passed" := hne m (List.mem_cons_self m rest)
        rw [alookup_ainsert_ne _ _ _ _ hmne]
        exact ⟨false, alookup_ainsert_self _ _ _⟩
    · exact ih (fun x hx => hne x (List.mem_cons_of_mem m0 hx)) _ m hm

/-- Claim C6: the per-file outcome of `RunUnitTests` records one boolean per
test method parsed from the runner output, and its `passed` field is `true`
exactly when the run exited with status zero, at least one method outcome
was recognized, and no recognized outcome was FAIL or ERROR. -/
theorem C6_unit_test_outcome (exitZero : Bool) (out : Src) :
    (∀ m ∈ outcomeMatches out,
       ∃ b, alookup (unitTestOutcome exitZero out) m.1 = some (.bool b)) ∧
    ∃ b, alookup (unitTestOutcome exitZero out) "passed" = some (.bool b) ∧
      (b = true ↔ exitZero = true ∧ outcomeMatches out ≠ [] ∧
        ∀ m ∈ outcomeMatches out, m.2.2.2 = "ok") := by
  have hne := outcomeMatches_ne_passed out
  by_cases hmm : outcomeMatches out = []
  · constructor
    · intro m hm
      rw [hmm] at hm
      simp at hm
    · refine ⟨false, ?_, ?_⟩
      · simp only [unitTestOutcome, hmm, List.isEmpty_nil, if_true]
        rw [alookup_ainsert_ne _ _ _ _ (by decide)]
        exact alookup_ainsert_self _ _ _
      · simp [hmm]
  · have hero : (outcomeMatches out).isEmpty = false := by
      cases hx : outcomeMatches out
      · exact absurd hx hmm
      · rfl
    constructor
    · intro m hm
      simp only [unitTestOutcome, hero, Bool.false_eq_true, if_false]
      exact unitFold_method _ hne _ m hm
    · refine ⟨exitZero && (outcomeMatches out).all (fun m => m.2.2.2 == "ok"), ?_, ?_⟩
      · simp only [unitTestOutcome, hero, Bool.false_eq_true, if_false]
        exact unitFold_passed _ hne _ _ (alookup_ainsert_self _ _ _)
      · simp only [Bool.and_eq_true, List.all_eq_true, beq_iff_eq]
        constructor
        · rintro ⟨h1, h2⟩
          exact ⟨h1, hmm, h2⟩
        · rintro ⟨h1, _, h2⟩
          exact ⟨h1, h2⟩

/-! ## Claim C7 -/

theorem inlineStepErr_passed (oc : List (String × Json)) (msg : String)
    (hp : alookup oc "passed" = some (.bool false)) :
    alookup (inlineStepErr oc msg) "passed" = some (.bool false) := by
  unfold inlineStepErr
  split
  · split
    · rw [alookup_ainsert_ne _ _ _ _ (by decide)]
      exact hp
    · rw [alookup_ainsert_ne _ _ _ _ (by decide)]
      exact hp
  · exact hp

theorem inlineStep_passed (oc : List (String × Json)) (m : String × String)
    (hp : alookup oc "passed" = some (.bool false)) :
    alookup (inlineStep oc m) "passed" = some (.bool false) := by
  unfold inlineStep
  apply inlineStepErr_passed
  split
  · exact alookup_ainsert_self _ _ _
  · exact hp

theorem inlineFold_passed_false (ms : List (String × String)) :
    ∀ (t : List (String × Json)),
      alookup t "passed" = some (.bool false) →
      alookup (ms.foldl inlineStep t) "passed" = some (.bool false) := by
  induction ms with
  | nil => intro t hp; simpa using hp
  | cons m rest ih =>
    intro t hp
    simp only [List.foldl_cons]
    exact ih _ (inlineStep_passed t m hp)

theorem inlineStepErr_error_pref (oc : List (String × Json)) (msg : String)
    (he : ∃ tl, alookup oc "error" = some (.str ("Time out." ++ tl))) :
    ∃ tl, alookup (inlineStepErr oc msg) "error" = some (.str ("Time out." ++ tl)) := by
  obtain ⟨tl, he⟩ := he
  unfold inlineStepErr
  split
  · rw [he]
    refine ⟨tl ++ ("; " ++ msg), ?_⟩
    have hassoc : ("Time out." ++ tl) ++ "; " ++ msg = "Time out." ++ (tl ++ ("; " ++ msg)) := by
      simp [String.append_assoc]
    show alookup (ainsert oc "error" (.str (("Time out." ++ tl) ++ "; " ++ msg))) "error" = _
    rw [hassoc]
    exact alookup_ainsert_self _ _ _
  · exact ⟨tl, he⟩

theorem inlineStep_error_pref (oc : List (String × Json)) (m : String × String)
    (he : ∃ tl, alookup oc "error" = some (.str ("Time out." ++ tl))) :
    ∃ tl, alookup (inlineStep oc m) "error" = some (.str ("Time out." ++ tl)) := by
  unfold inlineStep
  apply inlineStepErr_error_pref
  obtain ⟨tl, he⟩ := he
  refine ⟨tl, ?_⟩
  split
  · rw [alookup_ainsert_ne _ _ _ _ (by decide)]
    exact he
  · exact he

theorem inlineFold_error_pref (ms : List (String × String)) :
    ∀ (t : List (String × Json)),
      (∃ tl, alookup t "error" = some (.str ("Time out." ++ tl))) →
      ∃ tl, alookup (ms.foldl inlineStep t) "error" = some (.str ("Time out." ++ tl)) := by
  induction ms with
  | nil => intro t he; simpa using he
  | cons m rest ih =>
    intro t he
    simp only [List.foldl_cons]
    exact ih _ (inlineStep_error_pref t m he)

/-- Claim C7, amended: when the captured output matches the timeout pattern
(`time limit` followed by `Killing it` on one line), the outcome is not
passed and its `error` field begins with `Time out.`; marker messages found
in the same output are appended after it, so the field need not equal
`Time out.` exactly. -/
theorem C7_timeout_outcome (exitZero : Bool) (out : Src)
    (h : timeoutHit out = true) :
    alookup (inlineOutcome exitZero out) "passed" = some (.bool false) ∧
    ∃ tail, alookup (inlineOutcome exitZero out) "error"
      = some (.str ("Time out." ++ tail)) := by
  simp only [inlineOutcome, h, if_true]
  constructor
  · apply inlineFold_passed_false
    split
    · exact alookup_ainsert_self _ _ _
    · exact alookup_ainsert_self _ _ _
  · apply inlineFold_error_pref
    refine ⟨"", ?_⟩
    have hta : ("Time out." ++ "" : String) = "Time out." := by decide
    rw [hta]
    have hbase : alookup
        (ainsert (if (synErrMatches out).isEmpty then ([] : List (String × Json))
                  else ainsert [] "error" (.str (joinSemi (synErrMatches out))))
          "error" (.str "Time out.")) "error" = some (.str "Time out.") :=
      alookup_ainsert_self _ _ _
    split
    · rw [alookup_ainsert_ne _ _ _ _ (by decide)]
      rw [alookup_ainsert_ne _ _ _ _ (by decide)]
      exact hbase
    · rw [alookup_ainsert_ne _ _ _ _ (by decide)]
      exact hbase

/-- Counterexample for C7 as stated: a captured output that matches the
timeout pattern and also carries a FAIL marker with a message yields an
`error` field different from the exact string `Time out.`. -/
theorem C7_counterexample :
    timeoutHit c7cexOut = true ∧
    alookup (inlineOutcome false c7cexOut) "error" ≠ some (.str "Time out.") := by
  constructor
  · decide
  · intro h
    have h1 : alookup (inlineOutcome false c7cexOut) "error"
        = some (.str "Time out.; x") := rfl
    rw [h1] at h
    have h2 := Json.str.inj (Option.some.inj h)
    exact absurd h2 (by decide)

/-- Witness for the amended C7 at a concrete timed-out output. -/
theorem C7_witness :
    timeoutHit c7wOut = true ∧
    (alookup (inlineOutcome true c7wOut) "passed" = some (.bool false) ∧
     ∃ tail, alookup (inlineOutcome true c7wOut) "error"
       = some (.str ("Time out." ++ tail))) :=
  ⟨by decide, C7_timeout_outcome true c7wOut (by decide)⟩

/-! ## Claim C8 -/

theorem hasSub_append_right (lit s t : Src) (h : hasSub lit t = true) :
    hasSub lit (s ++ t) = true := by
  induction s with
  | nil => simpa using h
  | cons c s' ih =>
    unfold hasSub at *
    rw [List.cons_append]
    unfold findLitSuffix
    split
    · rfl
    · exact ih

/-- Claim C8: when the submitted cell text equals the exercise's
`empty_submission.py`, `GradeExercise` short-circuits: the returned outcome
is a one-entry map whose report contains `empty submission`, and no scratch
workspace is created and no test is run (the effect trace is empty). -/
theorem C8_empty_submission (env : AGEnv) (exerciseDir scratchDir : String) (submission : Src)
    (h : env.readFile (exerciseDir ++ "/empty_submission.py") = some submission) :
    ∃ report : String,
      GradeExercise env exerciseDir scratchDir submission
        = .ok ([("report", .str report)], []) ∧
      hasSub "empty submission".toList report.toList = true := by
  refine ⟨baseName exerciseDir ++ ": empty submission", ?_, ?_⟩
  · unfold GradeExercise
    rw [h]
    simp
  · have hsplit : (baseName exerciseDir ++ ": empty submission").toList
        = (baseName exerciseDir).toList ++ ": empty submission".toList :=
      String.data_append _ _
    rw [hsplit]
    exact hasSub_append_right _ _ _ (by decide)

/-- Witness for C8 at a concrete environment and prompt-equal submission. -/
theorem C8_witness :
    envW.readFile ("/ag/hw1/ex1" ++ "/empty_submission.py") = some "x = ...\n".toList ∧
    ∃ report : String,
      GradeExercise envW "/ag/hw1/ex1" "/tmp/scr/s1/ex1" "x = ...\n".toList
        = .ok ([("report", .str report)], []) ∧
      hasSub "empty submission".toList report.toList = true :=
  ⟨rfl, C8_empty_submission envW "/ag/hw1/ex1" "/tmp/scr/s1/ex1" "x = ...\n".toList rfl⟩

/-! ## Claim C1 -/

theorem gradeCells_found (env : AGEnv) (dir base req : String) :
    ∀ (cells : List Cell) (acc : List (String × Json)) (found : Bool) (effs : List Effect)
      (entries : List (String × Json)) (found' : Bool) (effs' : List Effect),
      gradeCells env dir base req cells acc found effs = .ok (entries, found', effs') →
      found' = (found || cells.any (matchesExercise req)) := by
  intro cells
  induction cells with
  | nil =>
    intro acc found effs entries found' effs' h
    simp only [gradeCells] at h
    have h2 := Except.ok.inj h
    have h3 : found = found' := congrArg (fun p => p.2.1) h2
    simp [← h3]
  | cons c rest ih =>
    intro acc found effs entries found' effs' h
    simp only [gradeCells] at h
    cases hm : alookup c.metadata "exercise_id" with
    | none =>
      simp only [hm] at h
      rw [ih _ _ _ _ _ _ h]
      simp [matchesExercise, hm]
    | some v =>
      cases v with
      | str e =>
        simp only [hm] at h
        by_cases hreq : (decide (req ≠ "") && decide (req ≠ e)) = true
        · rw [if_pos hreq] at h
          rw [ih _ _ _ _ _ _ h]
          have hreq' := hreq
          simp only [Bool.and_eq_true, decide_eq_true_eq] at hreq'
          have hme : matchesExercise req c = false := by
            simp [matchesExercise, hm, hreq'.1, hreq'.2]
          simp [hme]
        · rw [if_neg hreq] at h
          have hreq' := hreq
          simp only [Bool.and_eq_true, decide_eq_true_eq, not_and_or, not_not] at hreq'
          have hme : matchesExercise req c = true := by
            rcases hreq' with hr | hr <;> simp [matchesExercise, hm, hr]
          cases hd : env.dirStat (dir ++ "/" ++ e) with
          | none =>
            simp only [hd] at h
            exact Except.noConfusion h
          | some isdir =>
            cases isdir with
            | false =>
              simp only [hd] at h
              exact Except.noConfusion h
            | true =>
              simp only [hd] at h
              cases hg : GradeExercise env (dir ++ "/" ++ e) (base ++ "/" ++ e) c.source with
              | error msg =>
                simp only [hg] at h
                exact Except.noConfusion h
              | ok pr =>
                obtain ⟨outcome, effs2⟩ := pr
                simp only [hg] at h
                rw [ih _ _ _ _ _ _ h]
                simp [hme]
      | null =>
        simp only [hm] at h
        exact Except.noConfusion h
      | bool b =>
        simp only [hm] at h
        exact Except.noConfusion h
      | num n =>
        simp only [hm] at h
        exact Except.noConfusion h
      | arr xs =>
        simp only [hm] at h
        exact Except.noConfusion h
      | obj fs =>
        simp only [hm] at h
        exact Except.noConfusion h

theorem assembleFields_sid (entries : List (String × Json)) (found : Bool)
    (requested assignmentID userHash submissionID : String) (now : Int) :
    alookup (assembleFields entries found requested assignmentID userHash submissionID now)
      "submission_id" = some (.str submissionID) := by
  unfold assembleFields
  rw [alookup_ainsert_ne _ _ _ _ (by decide)]
  exact alookup_ainsert_self _ _ _

theorem assembleFields_error (entries : List (String × Json))
    (requested assignmentID userHash submissionID : String) (now : Int) :
    alookup (assembleFields entries false requested assignmentID userHash submissionID now)
      "error"
      = some (.str ("no exercises found. requested_exercise_id=" ++ requested)) := by
  unfold assembleFields
  rw [alookup_ainsert_ne _ _ _ _ (by decide)]
  rw [alookup_ainsert_ne _ _ _ _ (by decide)]
  rw [alookup_ainsert_ne _ _ _ _ (by decide)]
  rw [alookup_ainsert_ne _ _ _ _ (by decide)]
  rw [if_neg (by decide)]
  exact alookup_ainsert_self _ _ _

theorem gradeMain_ok (env : AGEnv) (j : Json)
    (sid aID uh req : String) (R : Json) (effs : List Effect)
    (hok : gradeMain env j sid aID uh req = .ok (R, effs)) :
    ∃ fields, R = .obj fields ∧
      alookup fields "submission_id" = some (.str sid) ∧
      (∀ nb, Parse j = .ok nb →
        nb.cells.any (matchesExercise req) = false →
        ∃ e, alookup fields "error" = some (.str e)) := by
  simp only [gradeMain, bind, Except.bind] at hok
  cases hds : env.dirStat (env.agDir ++ "/" ++ aID) with
  | none =>
    simp only [hds] at hok
    exact Except.noConfusion hok
  | some isdir =>
    cases isdir with
    | false =>
      simp only [hds] at hok
      exact Except.noConfusion hok
    | true =>
      simp only [hds] at hok
      cases hpar : Parse j with
      | error e =>
        simp only [hpar] at hok
        exact Except.noConfusion hok
      | ok n =>
        simp only [hpar] at hok
        cases har : env.autoRemove with
        | true =>
          rw [har, if_pos rfl] at hok
          cases hro : env.removeOk with
          | false =>
            rw [hro, if_neg (by decide)] at hok
            exact Except.noConfusion hok
          | true =>
            rw [hro, if_pos rfl] at hok
            cases hmk : env.mkdirOk with
            | false =>
              rw [hmk, if_neg (by decide)] at hok
              exact Except.noConfusion hok
            | true =>
              rw [hmk, if_pos rfl] at hok
              cases hgc : gradeCells env (env.agDir ++ "/" ++ aID)
                  (env.scratchRoot ++ "/" ++ sid) req n.cells [] false [] with
              | error e =>
                simp only [hgc] at hok
                exact Except.noConfusion hok
              | ok tup =>
                simp only [hgc] at hok
                have hR : _ = R := congrArg Prod.fst (Except.ok.inj hok)
                refine ⟨_, hR.symm, assembleFields_sid _ _ _ _ _ _ _, ?_⟩
                intro nb hnb hany
                have hn : n = nb := Except.ok.inj hnb
                subst hn
                have hf := gradeCells_found env _ _ _ _ _ _ _ _ _ _ hgc
                rw [hany] at hf
                simp only [Bool.false_or] at hf
                rw [hf]
                exact ⟨_, assembleFields_error _ _ _ _ _ _⟩
        | false =>
          rw [har, if_neg (by decide)] at hok
          cases hse : env.scratchExists (env.scratchRoot ++ "/" ++ sid) with
          | true =>
            rw [hse, if_pos rfl] at hok
            exact Except.noConfusion hok
          | false =>
            rw [hse, if_neg (by decide)] at hok
            cases hmk : env.mkdirOk with
            | false =>
              rw [hmk, if_neg (by decide)] at hok
              exact Except.noConfusion hok
            | true =>
              rw [hmk, if_pos rfl] at hok
              cases hgc : gradeCells env (env.agDir ++ "/" ++ aID)
                  (env.scratchRoot ++ "/" ++ sid) req n.cells [] false [] with
              | error e =>
                simp only [hgc] at hok
                exact Except.noConfusion hok
              | ok tup =>
                simp only [hgc] at hok
                have hR : _ = R := congrArg Prod.fst (Except.ok.inj hok)
                refine ⟨_, hR.symm, assembleFields_sid _ _ _ _ _ _ _, ?_⟩
                intro nb hnb hany
                have hn : n = nb := Except.ok.inj hnb
                subst hn
                have hf := gradeCells_found env _ _ _ _ _ _ _ _ _ _ hgc
                rw [hany] at hf
                simp only [Bool.false_or] at hf
                rw [hf]
                exact ⟨_, assembleFields_error _ _ _ _ _ _⟩

/-- Claim C1: whenever `Grade` succeeds on a notebook whose metadata carries
`submission_id = s`, the produced report object binds `submission_id` to
`s`; and when no cell matched an exercise (after the optional
`requested_exercise_id` filter), the report additionally carries a string
`error` key. -/
theorem C1_grade_report (env : AGEnv) (data m : List (String × Json)) (s : String)
    (R : Json) (effs : List Effect)
    (hmeta : alookup data "metadata" = some (.obj m))
    (hsid : alookup m "submission_id" = some (.str s))
    (hok : Grade env (.obj data) = .ok (R, effs)) :
    ∃ fields, R = .obj fields ∧
      alookup fields "submission_id" = some (.str s) ∧
      (∀ nb, Parse (.obj data) = .ok nb →
        nb.cells.any (matchesExercise (requestedOf m)) = false →
        ∃ e, alookup fields "error" = some (.str e)) := by
  simp only [Grade, hmeta, hsid, bind, Except.bind] at hok
  cases hass : alookup m "assignment_id" with
  | none =>
    simp only [hass] at hok
    exact Except.noConfusion hok
  | some v =>
    cases v with
    | str aID =>
      simp only [hass] at hok
      cases huh : alookup m "user_hash" with
      | none =>
        simp only [huh] at hok
        exact gradeMain_ok env (.obj data) s aID "unknown" (requestedOf m) R effs hok
      | some w =>
        cases w with
        | str uh =>
          simp only [huh] at hok
          exact gradeMain_ok env (.obj data) s aID uh (requestedOf m) R effs hok
        | null =>
          simp only [huh] at hok
          exact Except.noConfusion hok
        | bool b =>
          simp only [huh] at hok
          exact Except.noConfusion hok
        | num k =>
          simp only [huh] at hok
          exact Except.noConfusion hok
        | arr xs =>
          simp only [huh] at hok
          exact Except.noConfusion hok
        | obj fs =>
          simp only [huh] at hok
          exact Except.noConfusion hok
    | null =>
      simp only [hass] at hok
      exact Except.noConfusion hok
    | bool b =>
      simp only [hass] at hok
      exact Except.noConfusion hok
    | num k =>
      simp only [hass] at hok
      exact Except.noConfusion hok
    | arr xs =>
      simp only [hass] at hok
      exact Except.noConfusion hok
    | obj fs =>
      simp only [hass] at hok
      exact Except.noConfusion hok

/-- Witness for C1: a concrete environment and a notebook with no exercise
cells; the report carries the submission id and the no-exercise error. -/
theorem C1_witness :
    alookup data1 "metadata" = some (.obj m1) ∧
    alookup m1 "submission_id" = some (.str "s1") ∧
    Grade envW (.obj data1) = .ok (R1, []) ∧
    ∃ fields, R1 = .obj fields ∧
      alookup fields "submission_id" = some (.str "s1") ∧
      (∀ nb, Parse (.obj data1) = .ok nb →
        nb.cells.any (matchesExercise (requestedOf m1)) = false →
        ∃ e, alookup fields "error" = some (.str e)) :=
  ⟨rfl, rfl, rfl, C1_grade_report envW data1 m1 "s1" R1 [] rfl rfl rfl⟩

/-! ## Claim C9 -/

theorem isPrefixOf_append_self (l t : Src) : l.isPrefixOf (l ++ t) = true := by
  induction l with
  | nil => simp [List.isPrefixOf]
  | cons c l ih => simp [List.cons_append, List.isPrefixOf, ih]

theorem hasSub_self_append (lit rest : Src) (h : lit ≠ []) :
    hasSub lit (lit ++ rest) = true := by
  cases lit with
  | nil => exact absurd rfl h
  | cons c l =>
    unfold hasSub
    rw [List.cons_append]
    unfold findLitSuffix
    have hp : (c :: l).isPrefixOf (c :: (l ++ rest)) = true := by
      rw [← List.cons_append]
      exact isPrefixOf_append_self _ _
    rw [if_pos hp]
    rfl

theorem uploadFinish_ok (env : UpEnv) (headers : List (String × String))
    (data : List (String × Json)) (r : HttpResponse)
    (hok : uploadFinish env headers data = .ok r) :
    r.status = 200 ∧
    r.headers = headers ++ [("Content-Type", "text/html; charset=utf-8"),
      ("X-Report-Url", "/report/" ++ env.uuid)] ∧
    (env.gradeLocally = false →
      r.body = uploadResultHTML ("/report/" ++ env.uuid)) := by
  simp only [uploadFinish, bind, Except.bind] at hok
  repeat' split at hok
  all_goals (try exact Except.noConfusion hok)
  all_goals
    have hr := (Except.ok.inj hok).symm
  all_goals
    subst hr
  all_goals
    refine ⟨rfl, rfl, ?_⟩
  all_goals
    intro hgl
  all_goals
    first
    | rfl
    | exact absurd ((by simp [hgl]) : (!env.gradeLocally) = true)
        ‹¬((!env.gradeLocally) = true)›

theorem handleUpload_to_finish (env : UpEnv) (r : HttpResponse)
    (hm : env.method ≠ "OPTIONS")
    (hok : handleUpload env = .ok r) :
    ∃ data, uploadFinish env
      (if env.allowCORS then
        [("Access-Control-Allow-Origin", (env.origin).getD "*"),
         ("Access-Control-Allow-Credentials", "true"),
         ("Access-Control-Max-Age", "1800"),
         ("Access-Control-Expose-Headers", "X-Report-Url")]
       else []) data = .ok r := by
  simp only [handleUpload, bind, Except.bind, if_neg hm, List.append_nil] at hok
  cases huo : env.useOpenID with
  | false =>
    rw [huo, if_neg (by decide)] at hok
    by_cases hpost : env.method = "POST"
    case neg =>
      rw [if_neg hpost] at hok
      exact Except.noConfusion hok
    case pos =>
      rw [if_pos hpost] at hok
      cases hff : env.formFile with
      | none =>
        simp only [hff] at hok
        exact Except.noConfusion hok
      | some j =>
        simp only [hff] at hok
        cases hw : env.writeOk with
        | false =>
          rw [hw, if_neg (by decide)] at hok
          exact Except.noConfusion hok
        | true =>
          rw [hw, if_pos rfl] at hok
          cases j with
          | obj d => exact ⟨_, hok⟩
          | null => exact Except.noConfusion hok
          | bool b => exact Except.noConfusion hok
          | num k => exact Except.noConfusion hok
          | str s => exact Except.noConfusion hok
          | arr xs => exact Except.noConfusion hok
  | true =>
    rw [huo, if_pos rfl] at hok
    cases hsh : env.sessionHash with
    | none =>
      simp only [hsh] at hok
      exact Except.noConfusion hok
    | some h =>
      simp only [hsh] at hok
      by_cases hpost : env.method = "POST"
      case neg =>
        rw [if_neg hpost] at hok
        exact Except.noConfusion hok
      case pos =>
        rw [if_pos hpost] at hok
        cases hff : env.formFile with
        | none =>
          simp only [hff] at hok
          exact Except.noConfusion hok
        | some j =>
          simp only [hff] at hok
          cases hw : env.writeOk with
          | false =>
            rw [hw, if_neg (by decide)] at hok
            exact Except.noConfusion hok
          | true =>
            rw [hw, if_pos rfl] at hok
            cases j with
            | obj d => exact ⟨_, hok⟩
            | null => exact Except.noConfusion hok
            | bool b => exact Except.noConfusion hok
            | num k => exact Except.noConfusion hok
            | str s => exact Except.noConfusion hok
            | arr xs => exact Except.noConfusion hok

/-- Claim C9, corrected: on every successful non-preflight upload the
response has status 200 and an `X-Report-Url` header equal to
`/report/<uuid>`; in asynchronous mode the body is the upload-result HTML
page, which contains the report URL as a substring (but is not equal to
it, see the counterexample). -/
theorem C9_report_response (env : UpEnv) (r : HttpResponse)
    (hm : env.method ≠ "OPTIONS")
    (hok : handleUpload env = .ok r) :
    r.status = 200 ∧
    alookup r.headers "X-Report-Url" = some ("/report/" ++ env.uuid) ∧
    (env.gradeLocally = false →
      hasSub ("/report/" ++ env.uuid).toList r.body = true) := by
  obtain ⟨data, hfin⟩ := handleUpload_to_finish env r hm hok
  obtain ⟨hst, hhd, hbody⟩ := uploadFinish_ok env _ data r hfin
  refine ⟨hst, ?_, ?_⟩
  · rw [hhd]
    cases hc : env.allowCORS with
    | true => simp [alookup]
    | false => simp [alookup]
  · intro hgl
    rw [hbody hgl]
    unfold uploadResultHTML
    have hsplit :
        ("\n<html>\n<title>Upload completed</title>\n<link rel=\x27stylesheet\x27 type=\x27text/css\x27 href=\x27/static/style.css\x27/>\n<h2>Upload succeeded</h2>\nClick here for the <a href=\x27"
          ++ ("/report/" ++ env.uuid) ++ "\x27>Report</a>.\n").toList
        = "\n<html>\n<title>Upload completed</title>\n<link rel=\x27stylesheet\x27 type=\x27text/css\x27 href=\x27/static/style.css\x27/>\n<h2>Upload succeeded</h2>\nClick here for the <a href=\x27".toList
          ++ (("/report/" ++ env.uuid).toList ++ "\x27>Report</a>.\n".toList) := by
      simp only [String.toList]
      rw [String.data_append, String.data_append, List.append_assoc]
    rw [hsplit]
    apply hasSub_append_right
    apply hasSub_self_append
    simp [String.toList, String.data_append]

/-- Counterexample for C9: on a successful asynchronous upload the later
server version returns the HTML upload page, not the bare `/report/<uuid>`
body the spec states; and the earlier version's response, whose body is the
bare URL, carries no `X-Report-Url` header. -/
theorem C9_counterexample :
    handleUpload env9 = .ok r9 ∧
    r9.status = 200 ∧
    r9.body ≠ ("/report/u1").toList ∧
    alookup (handleUploadLegacyResponse none "u1").headers "X-Report-Url" = none := by
  refine ⟨rfl, rfl, ?_, rfl⟩
  decide

/-- Witness for C9 at the concrete asynchronous environment `env9`. -/
theorem C9_witness :
    env9.method ≠ "OPTIONS" ∧ handleUpload env9 = .ok r9 ∧
    (r9.status = 200 ∧
      alookup r9.headers "X-Report-Url" = some ("/report/" ++ env9.uuid) ∧
      (env9.gradeLocally = false →
        hasSub ("/report/" ++ env9.uuid).toList r9.body = true)) :=
  ⟨by decide, rfl, C9_report_response env9 r9 (by decide) rfl⟩

/-! ## Claim C3 -/

theorem splitNL_ne_nil (s : Src) : splitNL s ≠ [] := by
  cases s with
  | nil => simp [splitNL]
  | cons c rest =>
    simp only [splitNL]
    split
    · simp
    · split <;> simp

theorem marshalText_flatten (s : Src) : (marshalText s).flatten = s := by
  unfold marshalText
  induction s with
  | nil => rfl
  | cons c rest ih =>
    by_cases hc : c = '\n'
    · subst hc
      cases hsp : splitNL rest with
      | nil => exact absurd hsp (splitNL_ne_nil rest)
      | cons l ls =>
        rw [hsp] at ih
        simp only [splitNL, eq_self_iff_true, if_true, hsp]
        simp only [appendNLButLast, List.flatten_cons]
        rw [ih]
        rfl
    · cases hsp : splitNL rest with
      | nil => exact absurd hsp (splitNL_ne_nil rest)
      | cons l ls =>
        rw [hsp] at ih
        simp only [splitNL, if_neg hc, hsp]
        cases ls with
        | nil =>
          simp only [appendNLButLast, List.flatten] at ih ⊢
          simp only [List.append_nil] at ih ⊢
          rw [ih]
        | cons l2 ls2 =>
          simp only [appendNLButLast, List.flatten_cons] at ih ⊢
          rw [← ih]
          simp

theorem parseText_marshal (s : Src) :
    parseText (some (.arr ((marshalText s).map (fun l => Json.str l.asString)))) = .ok s := by
  have key : ∀ (ls : List Src) (acc : Src),
      (ls.map (fun l => Json.str l.asString)).foldlM (fun acc j =>
        match j with
        | .str s => Except.ok (acc ++ s.toList)
        | _ => Except.error "cell.source has not a string") acc
        = .ok (acc ++ ls.flatten) := by
    intro ls
    induction ls with
    | nil => intro acc; simp [List.foldlM, pure, Except.pure]
    | cons l ls ih =>
      intro acc
      simp only [List.map_cons, List.foldlM, bind, Except.bind]
      rw [ih]
      have hback : (List.asString l).toList = l := rfl
      rw [hback, List.flatten_cons, List.append_assoc]
  simp only [parseText]
  rw [key]
  rw [marshalText_flatten]
  simp

theorem outStep_outJson (acc : List (String × Src)) (p : String × Src) :
    outStep acc (outJson p) = .ok (ainsert acc p.1 p.2) := by
  simp [outStep, outJson, alookup, parseText_marshal]

theorem foldlM_outJson (ps : List (String × Src)) :
    ∀ acc, ∃ l, (ps.map outJson).foldlM outStep acc = .ok l := by
  induction ps with
  | nil => intro acc; exact ⟨acc, rfl⟩
  | cons p ps ih =>
    intro acc
    obtain ⟨l, hl⟩ := ih (ainsert acc p.1 p.2)
    refine ⟨l, ?_⟩
    simp only [List.map_cons, List.foldlM, outStep_outJson, bind, Except.bind]
    exact hl

theorem parseCell_cellFields (c : Cell) :
    ∃ c2, parseCell (cellFields c) = .ok c2 ∧
      c2.type = c.type ∧ c2.metadata = c.metadata ∧ c2.source = c.source := by
  by_cases ht : c.type = "code"
  · have h1 : alookup (cellFields c) "cell_type" = some (.str c.type) := by
      simp [cellFields, alookup, ht]
    have h2 : alookup (cellFields c) "metadata" = some (.obj c.metadata) := by
      simp [cellFields, alookup, ht]
    have h3 : alookup (cellFields c) "source"
        = some (.arr ((marshalText c.source).map (fun l => Json.str l.asString))) := by
      simp [cellFields, alookup, ht]
    have h4 : alookup (cellFields c) "outputs"
        = some (.arr ((c.outputs.getD []).map outJson)) := by
      simp [cellFields, alookup, ht]
    obtain ⟨l, h5⟩ := foldlM_outJson (c.outputs.getD []) []
    refine ⟨{ type := c.type, metadata := c.metadata, outputs := some l,
              source := c.source }, ?_, rfl, rfl, rfl⟩
    simp only [parseCell, h1, h2, h3, h4, parseText_marshal, parseOutputs, h5,
      Except.map, bind, Except.bind, pure, Except.pure]
  · have h1 : alookup (cellFields c) "cell_type" = some (.str c.type) := by
      simp [cellFields, alookup, ht]
    have h2 : alookup (cellFields c) "metadata" = some (.obj c.metadata) := by
      simp [cellFields, alookup, ht]
    have h3 : alookup (cellFields c) "source"
        = some (.arr ((marshalText c.source).map (fun l => Json.str l.asString))) := by
      simp [cellFields, alookup, ht]
    have h4 : alookup (cellFields c) "outputs" = none := by
      simp [cellFields, alookup, ht]
    refine ⟨{ type := c.type, metadata := c.metadata, outputs := none,
              source := c.source }, ?_, rfl, rfl, rfl⟩
    simp only [parseCell, h1, h2, h3, h4, parseText_marshal,
      Except.map, bind, Except.bind, pure, Except.pure]

theorem mapM_cellJson (cells : List Cell) :
    ∃ cells2, (cells.map cellJson).mapM (fun x =>
        match x with
        | .obj celldata => parseCell celldata
        | _ => .error "cell is not a map") = .ok cells2 ∧
      List.Forall₂ (fun a b => b.type = a.type ∧ b.metadata = a.metadata ∧ b.source = a.source)
        cells cells2 := by
  induction cells with
  | nil => exact ⟨[], rfl, List.Forall₂.nil⟩
  | cons c cs ih =>
    obtain ⟨cs2, hcs, hf⟩ := ih
    obtain ⟨c2, hc2, ht, hm, hs⟩ := parseCell_cellFields c
    refine ⟨c2 :: cs2, ?_, List.Forall₂.cons ⟨ht, hm, hs⟩ hf⟩
    simp only [List.map_cons, List.mapM_cons, cellJson, hc2, hcs, bind, Except.bind,
      pure, Except.pure]

/-- Claim C3, corrected: re-parsing the bytes emitted for a parsed notebook
reproduces every cell's type, metadata and source — provided the notebook
has at least one cell.  (A parsed notebook with no cells marshals its nil
cell slice as JSON `null`, which `Parse` rejects; see the
counterexample.) -/
theorem C3_roundtrip (j : Json) (nb : Notebook) (hp : Parse j = .ok nb)
    (hne : nb.cells ≠ []) :
    ∃ nb2, Parse (Marshal nb) = .ok nb2 ∧
      List.Forall₂ (fun a b => b.type = a.type ∧ b.metadata = a.metadata ∧ b.source = a.source)
        nb.cells nb2.cells := by
  obtain ⟨cells2, hmap, hf⟩ := mapM_cellJson nb.cells
  cases hc : nb.cells with
  | nil => exact absurd hc hne
  | cons c cs =>
    rw [hc] at hmap hf
    cases hmeta : nb.metadata with
    | some m =>
      have hM : Marshal nb = Json.obj [("nbformat", .num nb.nbformat),
          ("nbformat_minor", .num nb.nbformatMinor),
          ("metadata", .obj m),
          ("cells", .arr ((c :: cs).map cellJson))] := by
        unfold Marshal
        rw [hc, hmeta]
      have hA1 : alookup [("nbformat", Json.num nb.nbformat),
          ("nbformat_minor", Json.num nb.nbformatMinor),
          ("metadata", Json.obj m),
          ("cells", Json.arr ((c :: cs).map cellJson))] "nbformat"
          = some (.num nb.nbformat) := by simp [alookup]
      have hA2 : alookup [("nbformat", Json.num nb.nbformat),
          ("nbformat_minor", Json.num nb.nbformatMinor),
          ("metadata", Json.obj m),
          ("cells", Json.arr ((c :: cs).map cellJson))] "nbformat_minor"
          = some (.num nb.nbformatMinor) := by simp [alookup]
      have hA3 : alookup [("nbformat", Json.num nb.nbformat),
          ("nbformat_minor", Json.num nb.nbformatMinor),
          ("metadata", Json.obj m),
          ("cells", Json.arr ((c :: cs).map cellJson))] "metadata"
          = some (.obj m) := by simp [alookup]
      have hA4 : alookup [("nbformat", Json.num nb.nbformat),
          ("nbformat_minor", Json.num nb.nbformatMinor),
          ("metadata", Json.obj m),
          ("cells", Json.arr ((c :: cs).map cellJson))] "cells"
          = some (.arr ((c :: cs).map cellJson)) := by simp [alookup]
      refine ⟨{ nbformat := nb.nbformat, nbformatMinor := nb.nbformatMinor,
                metadata := some m, cells := cells2 }, ?_, hf⟩
      rw [hM]
      simp only [Parse, hA1, hA2, hA3, hA4, hmap, bind, Except.bind, pure, Except.pure]
    | none =>
      have hM : Marshal nb = Json.obj [("nbformat", .num nb.nbformat),
          ("nbformat_minor", .num nb.nbformatMinor),
          ("metadata", Json.null),
          ("cells", .arr ((c :: cs).map cellJson))] := by
        unfold Marshal
        rw [hc, hmeta]
      have hA1 : alookup [("nbformat", Json.num nb.nbformat),
          ("nbformat_minor", Json.num nb.nbformatMinor),
          ("metadata", Json.null),
          ("cells", Json.arr ((c :: cs).map cellJson))] "nbformat"
          = some (.num nb.nbformat) := by simp [alookup]
      have hA2 : alookup [("nbformat", Json.num nb.nbformat),
          ("nbformat_minor", Json.num nb.nbformatMinor),
          ("metadata", Json.null),
          ("cells", Json.arr ((c :: cs).map cellJson))] "nbformat_minor"
          = some (.num nb.nbformatMinor) := by simp [alookup]
      have hA3 : alookup [("nbformat", Json.num nb.nbformat),
          ("nbformat_minor", Json.num nb.nbformatMinor),
          ("metadata", Json.null),
          ("cells", Json.arr ((c :: cs).map cellJson))] "metadata"
          = some Json.null := by simp [alookup]
      have hA4 : alookup [("nbformat", Json.num nb.nbformat),
          ("nbformat_minor", Json.num nb.nbformatMinor),
          ("metadata", Json.null),
          ("cells", Json.arr ((c :: cs).map cellJson))] "cells"
          = some (.arr ((c :: cs).map cellJson)) := by simp [alookup]
      refine ⟨{ nbformat := nb.nbformat, nbformatMinor := nb.nbformatMinor,
                metadata := none, cells := cells2 }, ?_, hf⟩
      rw [hM]
      simp only [Parse, hA1, hA2, hA3, hA4, hmap, bind, Except.bind, pure, Except.pure]

/-- Counterexample for C3: the empty JSON object parses to a notebook with
no cells, but marshalling that notebook renders the nil cell slice as JSON
`null`, which re-parsing rejects. -/
theorem C3_counterexample :
    Parse (Json.obj []) = .ok nbEmpty ∧
    Parse (Marshal nbEmpty) = .error ".cells is not a list" :=
  ⟨rfl, rfl⟩

/-- Witness for C3 at a concrete one-cell notebook. -/
theorem C3_witness :
    Parse j3 = .ok nb3 ∧
    ∃ nb2, Parse (Marshal nb3) = .ok nb2 ∧
      List.Forall₂ (fun a b => b.type = a.type ∧ b.metadata = a.metadata ∧ b.source = a.source)
        nb3.cells nb2.cells :=
  ⟨rfl, C3_roundtrip j3 nb3 rfl (List.cons_ne_nil _ _)⟩

/-! ## Claim C4 -/

/-- Claim C4, corrected: unknown keys are NOT preserved — the emitter writes
only a fixed set of keys.  Every top-level key of the marshalled notebook is
one of `nbformat`, `nbformat_minor`, `metadata`, `cells`, and every key of an
emitted cell object is one of `metadata`, `cell_type`, `execution_count`,
`outputs`, `source`; any other key of the parsed input is lost. -/
theorem C4_emitted_keys (nb : Notebook) (c : Cell) (k k2 : String)
    (h : ahas (objFields (Marshal nb)) k = true)
    (h2 : ahas (cellFields c) k2 = true) :
    (k = "nbformat" ∨ k = "nbformat_minor" ∨ k = "metadata" ∨ k = "cells") ∧
    (k2 = "metadata" ∨ k2 = "cell_type" ∨ k2 = "execution_count" ∨
      k2 = "outputs" ∨ k2 = "source") := by
  constructor
  · simp only [Marshal, objFields, ahas, List.any_cons, List.any_nil,
      Bool.or_eq_true, decide_eq_true_eq, Bool.or_false] at h
    rcases h with h | h | h | h
    · exact Or.inl h.symm
    · exact Or.inr (Or.inl h.symm)
    · exact Or.inr (Or.inr (Or.inl h.symm))
    · exact Or.inr (Or.inr (Or.inr h.symm))
  · by_cases ht : c.type = "code"
    · simp only [cellFields, ht, if_pos, List.append_assoc, List.cons_append,
        List.nil_append, ahas, List.any_cons, List.any_nil, Bool.or_eq_true,
        decide_eq_true_eq, Bool.or_false] at h2
      rcases h2 with h2 | h2 | h2 | h2 | h2
      · exact Or.inl h2.symm
      · exact Or.inr (Or.inl h2.symm)
      · exact Or.inr (Or.inr (Or.inl h2.symm))
      · exact Or.inr (Or.inr (Or.inr (Or.inl h2.symm)))
      · exact Or.inr (Or.inr (Or.inr (Or.inr h2.symm)))
    · simp only [cellFields, ht, if_false, List.append_assoc, List.cons_append,
        List.nil_append, ahas, List.any_cons, List.any_nil, Bool.or_eq_true,
        decide_eq_true_eq, Bool.or_false] at h2
      rcases h2 with h2 | h2 | h2
      · exact Or.inl h2.symm
      · exact Or.inr (Or.inl h2.symm)
      · exact Or.inr (Or.inr (Or.inr (Or.inr h2.symm)))

/-- Counterexample for C4: `j4` parses successfully, but its unknown
top-level key `extra` and unknown per-cell key `custom` are absent from the
re-emitted notebook. -/
theorem C4_counterexample :
    Parse j4 = .ok nb4 ∧
    ahas (objFields j4) "extra" = true ∧
    ahas (objFields (Marshal nb4)) "extra" = false ∧
    ahas (objFields ((nb4.cells.map cellJson).getD 0 Json.null)) "custom" = false := by
  refine ⟨rfl, rfl, rfl, rfl⟩

/-- Witness for C4 at a concrete notebook and keys. -/
theorem C4_witness :
    ahas (objFields (Marshal nb4)) "nbformat" = true ∧
    ahas (cellFields (nb4.cells.getD 0 cellDflt)) "source" = true ∧
    (("nbformat" = "nbformat" ∨ "nbformat" = "nbformat_minor" ∨ "nbformat" = "metadata" ∨
        "nbformat" = "cells") ∧
      ("source" = "metadata" ∨ "source" = "cell_type" ∨ "source" = "execution_count" ∨
        "source" = "outputs" ∨ "source" = "source")) :=
  ⟨rfl, rfl, C4_emitted_keys nb4 (nb4.cells.getD 0 cellDflt) "nbformat" "source" rfl rfl⟩

/-! ## Claim C2 -/

/-- Claim C2 (code bug): in the minimal master notebook `nbC2` the code cell
`x = 1` sits between the `ex1` exercise-metadata block and the `ex1`
solution cell, so by the claim the emitted `Test1_context.py` must contain
it.  The emitted context cell instead holds only the newline separating the
(empty) global context, because `ToAutograder` accumulates
`exerciseContext` but builds every `<Name>_context.py` solely from
`globalContext`. -/
theorem C2_context_dropped :
    ToAutograder nbC2 = .ok nbC2out ∧
    alookup (nbC2out.cells.getD 2 cellDflt).metadata "filename"
      = some (.str "Test1_context.py") ∧
    ctxCellC2.source = "x = 1\n".toList ∧
    (nbC2out.cells.getD 2 cellDflt).source = ['\n'] ∧
    hasSub ctxCellC2.source (nbC2out.cells.getD 2 cellDflt).source = false := by
  refine ⟨rfl, rfl, rfl, rfl, ?_⟩
  decide

/-! ## Claim C5: substring machinery -/

theorem hasSub_prefix (lit s : Src) (h : lit.isPrefixOf s = true) :
    hasSub lit s = true := by
  cases s with
  | nil =>
    cases lit with
    | nil => rfl
    | cons c t => simp [List.isPrefixOf] at h
  | cons c rest =>
    unfold hasSub findLitSuffix
    rw [if_pos h]
    rfl

theorem hasSub_cons (lit : Src) (c : Char) (rest : Src)
    (h : hasSub lit rest = true) : hasSub lit (c :: rest) = true := by
  unfold hasSub findLitSuffix
  split
  · rfl
  · exact h

theorem hasSub_iff (lit s : Src) :
    hasSub lit s = true ↔ ∃ u v, s = u ++ lit ++ v := by
  constructor
  · intro h
    induction s with
    | nil =>
      cases lit with
      | nil => exact ⟨[], [], rfl⟩
      | cons c t => exact Bool.noConfusion h
    | cons c rest ih =>
      unfold hasSub findLitSuffix at h
      split at h
      · rename_i hp
        obtain ⟨v, hv⟩ := (List.isPrefixOf_iff_prefix.1 hp)
        exact ⟨[], v, by rw [← hv]; rfl⟩
      · obtain ⟨u, v, huv⟩ := ih h
        exact ⟨c :: u, v, by rw [huv]; rfl⟩
  · intro ⟨u, v, huv⟩
    subst huv
    induction u with
    | nil =>
      apply hasSub_prefix
      rw [List.nil_append]
      exact isPrefixOf_append_self lit v
    | cons c u ih =>
      exact hasSub_cons _ _ _ ih

theorem hasSub_append_left (lit u v : Src) (h : hasSub lit u = true) :
    hasSub lit (u ++ v) = true := by
  obtain ⟨x, y, hxy⟩ := (hasSub_iff lit u).1 h
  apply (hasSub_iff lit (u ++ v)).2
  exact ⟨x, y ++ v, by rw [hxy]; simp [List.append_assoc]⟩

theorem hasSub_sub (pre tok s : Src) (h : hasSub (pre ++ tok) s = true) :
    hasSub tok s = true := by
  obtain ⟨u, v, huv⟩ := (hasSub_iff _ s).1 h
  apply (hasSub_iff tok s).2
  exact ⟨u ++ pre, v, by rw [huv]; simp [List.append_assoc]⟩

theorem hasSub_split (tok a b : Src) (h : hasSub tok (a ++ b) = true) :
    hasSub tok a = true ∨ hasSub tok b = true ∨
      ∃ t1 t2, tok = t1 ++ t2 ∧ t1 ≠ [] ∧ t2 ≠ [] ∧
        (∃ u, a = u ++ t1) ∧ (∃ v, b = t2 ++ v) := by
  obtain ⟨u, v, huv⟩ := (hasSub_iff tok (a ++ b)).1 h
  by_cases h1 : u.length + tok.length ≤ a.length
  · left
    apply (hasSub_iff tok a).2
    have hta := congrArg (List.take a.length) huv
    rw [List.take_left] at hta
    rw [List.take_append_eq_append_take,
        List.take_of_length_le (by simp [List.length_append]; omega)] at hta
    exact ⟨u, _, hta⟩
  · by_cases h2 : a.length ≤ u.length
    · right; left
      apply (hasSub_iff tok b).2
      have htb := congrArg (List.drop a.length) huv
      rw [List.drop_left] at htb
      rw [List.drop_append_eq_append_drop,
          show a.length - (u ++ tok).length = 0 from by
            simp [List.length_append]; omega,
          List.drop_zero, List.drop_append_eq_append_drop,
          Nat.sub_eq_zero_of_le h2, List.drop_zero] at htb
      exact ⟨u.drop a.length, v, htb⟩
    · right; right
      refine ⟨tok.take (a.length - u.length), tok.drop (a.length - u.length),
        (List.take_append_drop _ _).symm, ?_, ?_, ?_, ?_⟩
      · intro hnil
        rcases List.take_eq_nil_iff.1 hnil with h0 | h0 <;>
          first
          | omega
          | (have hlen := congrArg List.length h0
             simp only [List.length_nil] at hlen
             omega)
      · intro hnil
        have hlen := List.drop_eq_nil_iff.1 hnil
        omega
      · have hta := congrArg (List.take a.length) huv
        rw [List.take_left] at hta
        rw [List.take_append_eq_append_take,
            show a.length - (u ++ tok).length = 0 from by
              simp [List.length_append]; omega,
            List.take_zero, List.append_nil,
            List.take_append_eq_append_take,
            List.take_of_length_le (by omega : u.length ≤ a.length)] at hta
        exact ⟨u, hta⟩
      · have htb := congrArg (List.drop a.length) huv
        rw [List.drop_left] at htb
        rw [List.drop_append_eq_append_drop,
            show a.length - (u ++ tok).length = 0 from by
              simp [List.length_append]; omega,
            List.drop_zero, List.drop_append_eq_append_drop,
            List.drop_eq_nil_of_le (by omega : u.length ≤ a.length),
            List.nil_append] at htb
        exact ⟨v, htb⟩

theorem hasSub_nl_junction (tok a b : Src) (hne : tok ≠ []) (hnl : ¬('\n' ∈ tok))
    (hlast : a = [] ∨ a.getLast? = some '\n')
    (ha : hasSub tok a = false) (hb : hasSub tok b = false) :
    hasSub tok (a ++ b) = false := by
  by_contra hcon
  rw [Bool.not_eq_false] at hcon
  rcases hasSub_split tok a b hcon with h | h | ⟨t1, t2, htok, h1, h2, ⟨u, hu⟩, ⟨v, hv⟩⟩
  · rw [h] at ha; exact Bool.noConfusion ha
  · rw [h] at hb; exact Bool.noConfusion hb
  · rcases hlast with rfl | hlast
    · have hlen := congrArg List.length hu
      simp at hlen
      exact h1 (List.eq_nil_of_length_eq_zero (by omega))
    · have ht1 : t1.dropLast ++ [t1.getLast h1] = t1 := List.dropLast_append_getLast h1
      have ha2 : a = (u ++ t1.dropLast) ++ [t1.getLast h1] := by
        rw [List.append_assoc, ht1]
        exact hu
      have hg : a.getLast? = some (t1.getLast h1) := by
        rw [ha2]
        exact List.getLast?_concat _
      rw [hlast] at hg
      have hl : t1.getLast h1 = '\n' := (Option.some.inj hg).symm
      apply hnl
      rw [htok]
      exact List.mem_append_left _ (hl ▸ List.getLast_mem h1)

theorem hasSub_nil_false (tok : Src) (hne : tok ≠ []) : hasSub tok [] = false := by
  cases tok with
  | nil => exact absurd rfl hne
  | cons c t => rfl

theorem hasSub_append_right_false (tok x y : Src)
    (h : hasSub tok (x ++ y) = false) : hasSub tok y = false := by
  by_contra hcon
  rw [Bool.not_eq_false] at hcon
  rw [hasSub_append_right _ _ _ hcon] at h
  exact Bool.noConfusion h

theorem hasSub_append_left_false (tok x y : Src)
    (h : hasSub tok (x ++ y) = false) : hasSub tok x = false := by
  by_contra hcon
  rw [Bool.not_eq_false] at hcon
  rw [hasSub_append_left _ _ _ hcon] at h
  exact Bool.noConfusion h

theorem hasSub_cons_false (tok : Src) (c : Char) (rest : Src)
    (h : hasSub tok (c :: rest) = false) : hasSub tok rest = false :=
  hasSub_append_right_false tok [c] rest h

theorem stripAux_tokenFree (p : Src → Bool) (tok : Src) (hne : tok ≠ [])
    (hnl : ¬('\n' ∈ tok)) :
    ∀ (src line out : Src), stripLineMatchAux p line src = some out →
      hasSub tok (line ++ src) = false → hasSub tok out = false := by
  intro src
  induction src with
  | nil =>
    intro line out h hfree
    simp only [stripLineMatchAux] at h
    split at h
    · rw [← Option.some.inj h]
      exact hasSub_nil_false tok hne
    · exact Option.noConfusion h
  | cons c rest ih =>
    intro line out h hfree
    simp only [stripLineMatchAux] at h
    by_cases hc : c = '\n'
    · subst hc
      rw [if_pos rfl] at h
      have hfree2 : hasSub tok ((line ++ ['\n']) ++ rest) = false := by
        rw [← List.append_cons]
        exact hfree
      have hrest : hasSub tok rest = false := hasSub_append_right_false _ _ _ hfree2
      split at h
      · rw [← Option.some.inj h]
        unfold dropNLs
        apply hasSub_append_right_false tok (rest.takeWhile (fun c => c = '\n'))
        rw [List.takeWhile_append_dropWhile]
        exact hrest
      · cases hrec : stripLineMatchAux p [] rest with
        | none => rw [hrec] at h; exact Option.noConfusion h
        | some t =>
          rw [hrec] at h
          have hout : out = line ++ '\n' :: t := (Option.some.inj h).symm
          rw [hout, List.append_cons]
          apply hasSub_nl_junction tok (line ++ ['\n']) t hne hnl
          · right; exact List.getLast?_concat _
          · exact hasSub_append_left_false _ _ _ hfree2
          · exact ih [] t hrec hrest
    · rw [if_neg hc] at h
      apply ih (line ++ [c]) out h
      rw [← List.append_cons]
      exact hfree

theorem strips_tokenFree (tok : Src) (hne : tok ≠ []) (hnl : ¬('\n' ∈ tok))
    (s : Src) (h : hasSub tok s = false) : hasSub tok (strips s) = false := by
  unfold strips
  cases h1 : stripLineMatch lineIsTestMarker s with
  | some t =>
    have ht : hasSub tok t = false := stripAux_tokenFree lineIsTestMarker tok hne hnl s [] t h1 h
    show hasSub tok (match stripLineMatch lineIsStudentTest t with
      | some t2 => t2
      | none => t) = false
    cases h2 : stripLineMatch lineIsStudentTest t with
    | some t2 => exact stripAux_tokenFree lineIsStudentTest tok hne hnl t [] t2 h2 ht
    | none => exact ht
  | none =>
    show hasSub tok (match stripLineMatch lineIsStudentTest s with
      | some t2 => t2
      | none => s) = false
    cases h2 : stripLineMatch lineIsStudentTest s with
    | some t2 => exact stripAux_tokenFree lineIsStudentTest tok hne hnl s [] t2 h2 h
    | none => exact h

/-! ## Claim C5: scanner soundness -/

theorem hasSub_of_infix (tok l s u v : Src) (hs : s = u ++ l ++ v)
    (h : hasSub tok l = true) : hasSub tok s = true := by
  obtain ⟨x, y, hxy⟩ := (hasSub_iff _ _).1 h
  apply (hasSub_iff _ _).2
  exact ⟨u ++ x, y ++ v, by rw [hs, hxy]; simp [List.append_assoc]⟩

theorem removeLangTagsAux_id :
    ∀ (fuel : Nat) (s : Src), findLangTagAux fuel s = none →
      removeLangTagsAux fuel s = s := by
  intro fuel
  induction fuel with
  | zero => intro s h; rfl
  | succ n ih =>
    intro s h
    cases s with
    | nil => rfl
    | cons c rest =>
      simp only [findLangTagAux] at h
      simp only [removeLangTagsAux]
      cases hp : parseLangTagAt (c :: rest) with
      | some p =>
        simp only [hp] at h
        exact Option.noConfusion h
      | none =>
        simp only [hp] at h ⊢
        rw [ih rest h]

theorem removeLangTags_id (s : Src) (h : findLangTag s = none) :
    removeLangTags s = s :=
  removeLangTagsAux_id s.length s h

theorem filterText_id (lang : Language) (s : Src) (h : findLangTag s = none) :
    lang.filterText s = s := by
  unfold Language.filterText
  split
  · exact removeLangTags_id s h
  · rw [h]

theorem dropLit_some (lit s t : Src) (h : dropLit lit s = some t) :
    s = lit ++ t := by
  unfold dropLit at h
  split at h
  · rename_i hp
    obtain ⟨v, hv⟩ := List.isPrefixOf_iff_prefix.1 hp
    have ht : t = s.drop lit.length := (Option.some.inj h).symm
    rw [ht, ← hv, List.drop_left]
  · exact Option.noConfusion h

theorem dropIndent_split (s : Src) :
    s = s.takeWhile isIndentChar ++ dropIndent s := by
  unfold dropIndent
  exact (List.takeWhile_append_dropWhile _ _).symm

theorem lineIsMarkerSp_decomp (marker line : Src)
    (h : lineIsMarkerSp marker line = true) :
    ∃ u v, line = u ++ marker ++ v := by
  unfold lineIsMarkerSp at h
  cases hd : dropLit marker (dropIndent line) with
  | none => rw [hd] at h; exact Bool.noConfusion h
  | some rest =>
    have h2 := dropLit_some marker (dropIndent line) rest hd
    refine ⟨line.takeWhile isIndentChar, rest, ?_⟩
    calc line = line.takeWhile isIndentChar ++ dropIndent line := dropIndent_split line
      _ = line.takeWhile isIndentChar ++ (marker ++ rest) := by rw [h2]
      _ = line.takeWhile isIndentChar ++ marker ++ rest :=
        (List.append_assoc _ _ _).symm

theorem lineIsMarkerSp_hasSub (marker line : Src)
    (h : lineIsMarkerSp marker line = true) :
    hasSub marker line = true := by
  obtain ⟨u, v, huv⟩ := lineIsMarkerSp_decomp marker line h
  exact (hasSub_iff _ _).2 ⟨u, v, huv⟩

theorem linesWithPosAux_infix :
    ∀ (src line : Src) (off : Nat) (p : Nat × Src), p ∈ linesWithPosAux off line src →
      ∃ u v, line ++ src = u ++ p.2 ++ v := by
  intro src
  induction src with
  | nil =>
    intro line off p hp
    simp only [linesWithPosAux, List.mem_singleton] at hp
    subst hp
    exact ⟨[], [], by simp⟩
  | cons c rest ih =>
    intro line off p hp
    simp only [linesWithPosAux] at hp
    by_cases hc : c = '\n'
    · subst hc
      rw [if_pos rfl] at hp
      rcases List.mem_cons.1 hp with hp | hp
      · subst hp
        exact ⟨[], '\n' :: rest, by simp⟩
      · obtain ⟨u, v, huv⟩ := ih [] _ p hp
        refine ⟨line ++ ['\n'] ++ u, v, ?_⟩
        have h2 : rest = u ++ p.2 ++ v := by simpa using huv
        rw [List.append_cons, h2]
        simp [List.append_assoc]
    · rw [if_neg hc] at hp
      obtain ⟨u, v, huv⟩ := ih (line ++ [c]) _ p hp
      refine ⟨u, v, ?_⟩
      rw [List.append_cons]
      exact huv

theorem findAllBeginSolution_nil (s : Src)
    (h : hasSub "# BEGIN SOLUTION".toList s = false) :
    findAllBeginSolution s = [] := by
  unfold findAllBeginSolution
  rw [List.filterMap_eq_nil]
  intro a ha
  obtain ⟨i, o, line⟩ := a
  have hmem : (o, line) ∈ linesWithPos s := by
    have hmf := List.mem_enumFrom ha
    rw [hmf.2.2]
    exact List.getElem_mem _
  have hms : lineIsMarkerSp "# BEGIN SOLUTION".toList line = false := by
    cases hx : lineIsMarkerSp "# BEGIN SOLUTION".toList line with
    | false => rfl
    | true =>
      obtain ⟨u, v, huv⟩ := linesWithPosAux_infix s [] 0 (o, line) hmem
      have h2 : hasSub "# BEGIN SOLUTION".toList s = true :=
        hasSub_of_infix _ line s u v (by simpa using huv)
          (lineIsMarkerSp_hasSub _ _ hx)
      rw [h2] at h
      exact Bool.noConfusion h
  simp [hms]
  intro _
  exact hms

theorem fpbAux_some :
    ∀ (src pre line : Src) (r : Src × Src), fpbAux pre line src = some r →
      ∃ l, lineIsPromptBegin l = true ∧ ∃ u v, line ++ src = u ++ l ++ v := by
  intro src
  induction src with
  | nil => intro pre line r h; exact Option.noConfusion h
  | cons c rest ih =>
    intro pre line r h
    simp only [fpbAux] at h
    by_cases hc : c = '\n'
    · subst hc
      rw [if_pos rfl] at h
      split at h
      · rename_i hpb
        exact ⟨line, hpb, [], '\n' :: rest, by simp⟩
      · obtain ⟨l, hl, u, v, huv⟩ := ih _ [] r h
        refine ⟨l, hl, line ++ ['\n'] ++ u, v, ?_⟩
        have h2 : rest = u ++ l ++ v := by simpa using huv
        rw [List.append_cons, h2]
        simp [List.append_assoc]
    · rw [if_neg hc] at h
      obtain ⟨l, hl, u, v, huv⟩ := ih _ (line ++ [c]) r h
      refine ⟨l, hl, u, v, ?_⟩
      rw [List.append_cons]
      exact huv

theorem lineIsPromptBegin_hasSub (line : Src) (h : lineIsPromptBegin line = true) :
    hasSub "# BEGIN PROMPT".toList line = true := by
  unfold lineIsPromptBegin at h
  rw [Bool.or_eq_true] at h
  rcases h with h | h
  · have h2 := lineIsMarkerSp_hasSub _ _ h
    have he : "\x22\x22\x22 # BEGIN PROMPT".toList
        = "\x22\x22\x22 ".toList ++ "# BEGIN PROMPT".toList := rfl
    rw [he] at h2
    exact hasSub_sub _ _ _ h2
  · exact lineIsMarkerSp_hasSub _ _ h

theorem findPromptBeginSplit_none (s : Src)
    (h : hasSub "# BEGIN PROMPT".toList s = false) :
    findPromptBeginSplit s = none := by
  unfold findPromptBeginSplit
  cases hf : fpbAux [] [] s with
  | none => rfl
  | some r =>
    obtain ⟨l, hl, u, v, huv⟩ := fpbAux_some s [] [] r hf
    have hs : hasSub "# BEGIN PROMPT".toList s = true :=
      hasSub_of_infix _ l s u v (by simpa using huv)
        (lineIsPromptBegin_hasSub l hl)
    rw [hs] at h
    exact Bool.noConfusion h

theorem stripSolutionMagic_hasSub (s t : Src) (h : stripSolutionMagic s = some t) :
    hasSub "%%solution".toList s = true := by
  unfold stripSolutionMagic at h
  cases hd : dropLit "%%solution".toList (dropIndent s) with
  | none => rw [hd] at h; exact Option.noConfusion h
  | some rest =>
    have h2 := dropLit_some _ _ _ hd
    apply (hasSub_iff _ _).2
    refine ⟨s.takeWhile isIndentChar, rest, ?_⟩
    calc s = s.takeWhile isIndentChar ++ dropIndent s := dropIndent_split s
      _ = s.takeWhile isIndentChar ++ ("%%solution".toList ++ rest) := by rw [h2]
      _ = s.takeWhile isIndentChar ++ "%%solution".toList ++ rest :=
        (List.append_assoc _ _ _).symm

/-! ## Claim C5: the transformation -/

theorem CleanForStudent_solution (cell : Cell) (am em : List (String × Json))
    (lang : Language) (body : Src)
    (htc : cell.type = "code")
    (hss : stripSolutionMagic (strips cell.source) = some body)
    (hbtf : tokenFree body = true)
    (hbpr : hasSub "# BEGIN PROMPT".toList body = false) :
    ∃ r, CleanForStudent cell am em lang = .ok r ∧
      ∀ c2, r = some c2 → tokenFree c2.source = true := by
  have hbegin : hasSub "# BEGIN SOLUTION".toList body = false := by
    cases hx : hasSub "# BEGIN SOLUTION".toList body with
    | false => rfl
    | true =>
      have he : "# BEGIN SOLUTION".toList = "# ".toList ++ "BEGIN SOLUTION".toList := rfl
      rw [he] at hx
      have h2 := hasSub_sub _ _ _ hx
      simp only [tokenFree, Bool.and_eq_true, Bool.not_eq_true'] at hbtf
      rw [hbtf.1.2] at h2
      exact Bool.noConfusion h2
  simp only [CleanForStudent]
  rw [if_neg (show ¬(cell.type = "markdown") by rw [htc]; decide)]
  rw [if_neg (not_not_intro htc)]
  cases hin : (findMagicName "%%inlinetest".toList (strips cell.source)).isSome with
  | true =>
    rw [if_pos rfl]
    exact ⟨none, rfl, fun c2 h => Option.noConfusion h⟩
  | false =>
    rw [if_neg (by decide)]
    simp only [hss, findPromptBeginSplit_none body hbpr,
      findAllBeginSolution_nil body hbegin, bind, Except.bind]
    refine ⟨some { type := "code", metadata := em, outputs := none, source := "...".toList },
      rfl, ?_⟩
    intro c2 h2
    rw [← Option.some.inj h2]
    show tokenFree "...".toList = true
    decide

theorem toStudentCell_tokenFree (lang : Language) (st : ToStudentState) (cell : Cell)
    (cs : List Cell) (st2 : ToStudentState)
    (hwf : wfCell cell = true)
    (hok : toStudentCell lang st cell = .ok (cs, st2)) :
    ∀ c ∈ cs, tokenFree c.source = true := by
  by_cases hty : cell.type = "markdown"
  · unfold wfCell at hwf
    rw [if_pos hty] at hwf
    simp only [Bool.and_eq_true] at hwf
    obtain ⟨⟨⟨htf, hm1⟩, hm2⟩, hlt⟩ := hwf
    rw [Bool.not_eq_true'] at hm1 hm2
    simp only [toStudentCell] at hok
    rw [if_pos hty] at hok
    simp only [hm1, hm2, Bool.false_eq_true, if_false] at hok
    cases hmo : masterOnlyMatch cell.source with
    | true =>
      rw [hmo, if_pos rfl] at hok
      have hcs : ([] : List Cell) = cs := congrArg Prod.fst (Except.ok.inj hok)
      intro c hc
      rw [← hcs] at hc
      exact absurd hc (List.not_mem_nil c)
    | false =>
      rw [hmo, if_neg (by decide)] at hok
      have hft : lang.filterText cell.source = cell.source :=
        filterText_id lang cell.source (Option.isNone_iff_eq_none.1 hlt)
      rw [hft] at hok
      cases hemp : cell.source.isEmpty with
      | true =>
        rw [hemp, if_pos rfl] at hok
        have hcs : ([] : List Cell) = cs := congrArg Prod.fst (Except.ok.inj hok)
        intro c hc
        rw [← hcs] at hc
        exact absurd hc (List.not_mem_nil c)
      | false =>
        rw [hemp, if_neg (by decide)] at hok
        have hcs :
            ([{ type := cell.type, metadata := [], outputs := none,
                source := cell.source }] : List Cell) = cs :=
          congrArg Prod.fst (Except.ok.inj hok)
        intro c hc
        rw [← hcs] at hc
        rw [List.mem_singleton] at hc
        subst hc
        exact htf
  · by_cases htc : cell.type = "code"
    · unfold wfCell at hwf
      rw [if_neg hty, if_pos htc] at hwf
      rw [Bool.or_eq_true] at hwf
      simp only [toStudentCell] at hok
      rw [if_neg hty, if_neg (not_not_intro htc)] at hok
      cases hin : (findMagicName "%%inlinetest".toList (strips cell.source)).isSome with
      | true =>
        rw [hin, if_pos rfl] at hok
        have hcs : ([] : List Cell) = cs := congrArg Prod.fst (Except.ok.inj hok)
        intro c hc
        rw [← hcs] at hc
        exact absurd hc (List.not_mem_nil c)
      | false =>
        rw [hin, if_neg (by decide)] at hok
        rcases hwf with htf | hsol
        · have htf2 := htf
          simp only [tokenFree, Bool.and_eq_true, Bool.not_eq_true'] at htf2
          have hss : stripSolutionMagic (strips cell.source) = none := by
            cases hss2 : stripSolutionMagic (strips cell.source) with
            | none => rfl
            | some body =>
              have h2 := stripSolutionMagic_hasSub _ _ hss2
              have h3 : hasSub "%%solution".toList (strips cell.source) = false :=
                strips_tokenFree _ (by decide) (by decide) _ htf2.1.1.1.1.1.1.1
              rw [h3] at h2
              exact Bool.noConfusion h2
          simp only [hss, Option.isSome_none, Bool.false_eq_true, if_false] at hok
          split at hok
          · have hcs : ([] : List Cell) = cs := congrArg Prod.fst (Except.ok.inj hok)
            intro c hc
            rw [← hcs] at hc
            exact absurd hc (List.not_mem_nil c)
          · have hcs :
                ([{ type := "code", metadata := [], outputs := none,
                    source := strips cell.source }] : List Cell) = cs :=
              congrArg Prod.fst (Except.ok.inj hok)
            intro c hc
            rw [← hcs] at hc
            rw [List.mem_singleton] at hc
            subst hc
            simp only [tokenFree, Bool.and_eq_true, Bool.not_eq_true']
            refine ⟨⟨⟨⟨⟨⟨⟨?_, ?_⟩, ?_⟩, ?_⟩, ?_⟩, ?_⟩, ?_⟩, ?_⟩
            · exact strips_tokenFree _ (by decide) (by decide) _ htf2.1.1.1.1.1.1.1
            · exact strips_tokenFree _ (by decide) (by decide) _ htf2.1.1.1.1.1.1.2
            · exact strips_tokenFree _ (by decide) (by decide) _ htf2.1.1.1.1.1.2
            · exact strips_tokenFree _ (by decide) (by decide) _ htf2.1.1.1.1.2
            · exact strips_tokenFree _ (by decide) (by decide) _ htf2.1.1.1.2
            · exact strips_tokenFree _ (by decide) (by decide) _ htf2.1.1.2
            · exact strips_tokenFree _ (by decide) (by decide) _ htf2.1.2
            · exact strips_tokenFree _ (by decide) (by decide) _ htf2.2
        · cases hss2 : stripSolutionMagic (strips cell.source) with
          | none =>
            rw [hss2] at hsol
            exact Bool.noConfusion hsol
          | some body =>
            rw [hss2] at hsol
            simp only [Bool.and_eq_true, Bool.not_eq_true'] at hsol
            obtain ⟨hbtf, hbpr⟩ := hsol
            simp only [hss2, Option.isSome_some, if_true] at hok
            obtain ⟨r, hr, hrt⟩ :=
              CleanForStudent_solution cell st.assignMeta st.exMeta lang body htc hss2 hbtf hbpr
            cases r with
            | none =>
              simp only [hr] at hok
              have hcs : ([] : List Cell) = cs := congrArg Prod.fst (Except.ok.inj hok)
              intro c hc
              rw [← hcs] at hc
              exact absurd hc (List.not_mem_nil c)
            | some c2 =>
              simp only [hr] at hok
              have hcs : [c2] = cs := congrArg Prod.fst (Except.ok.inj hok)
              intro c hc
              rw [← hcs] at hc
              rw [List.mem_singleton] at hc
              subst hc
              exact hrt c rfl
    · unfold wfCell at hwf
      rw [if_neg hty, if_neg htc] at hwf
      simp only [toStudentCell] at hok
      rw [if_neg hty] at hok
      rw [if_pos htc] at hok
      have hcs :
          ([{ type := cell.type, metadata := [], outputs := none,
              source := cell.source }] : List Cell) = cs :=
        congrArg Prod.fst (Except.ok.inj hok)
      intro c hc
      rw [← hcs] at hc
      rw [List.mem_singleton] at hc
      subst hc
      exact hwf

theorem toStudentFold_tokenFree (lang : Language) :
    ∀ (cells : List Cell) (acc : List Cell) (st : ToStudentState)
      (out : List Cell) (stf : ToStudentState),
      (∀ c ∈ acc, tokenFree c.source = true) →
      cells.all wfCell = true →
      cells.foldlM (toStudentStep lang) (acc, st) = .ok (out, stf) →
      ∀ c ∈ out, tokenFree c.source = true := by
  intro cells
  induction cells with
  | nil =>
    intro acc st out stf hacc hwf h
    simp only [List.foldlM] at h
    have hout : acc = out := congrArg Prod.fst (Except.ok.inj h)
    intro c hc
    exact hacc c (hout ▸ hc)
  | cons cell rest ih =>
    intro acc st out stf hacc hwf h
    simp only [List.all_cons, Bool.and_eq_true] at hwf
    obtain ⟨hwf1, hwfr⟩ := hwf
    simp only [List.foldlM, bind, Except.bind] at h
    cases hstep : toStudentStep lang (acc, st) cell with
    | error e =>
      simp only [hstep] at h
      exact Except.noConfusion h
    | ok b =>
      simp only [hstep] at h
      unfold toStudentStep at hstep
      simp only [bind, Except.bind] at hstep
      cases hcell : toStudentCell lang (acc, st).2 cell with
      | error e =>
        simp only [hcell] at hstep
        exact Except.noConfusion hstep
      | ok p =>
        simp only [hcell] at hstep
        have hb : ((acc, st).1 ++ p.1, p.2) = b := Except.ok.inj hstep
        rw [← hb] at h
        apply ih (acc ++ p.1) p.2 out stf ?_ hwfr h
        intro c hc
        rcases List.mem_append.1 hc with hc | hc
        · exact hacc c hc
        · exact toStudentCell_tokenFree lang st cell p.1 p.2 hwf1 hcell c hc

/-- Claim C5, corrected: the student transformation does not scrub markdown
cells, raw cells, or marker-bearing code cells without a recognized magic
(see the counterexample); the token-freedom invariant holds for notebooks
whose cells are well formed in the sense of `wfCell` — markdown, raw and
plain code cells already token-free, and solution cells whose stripped body
is token-free with no prompt markers.  For those, every cell of the student
notebook is free of all of `%%solution`, `%%inlinetest`,
`# BEGIN UNITTEST`, `%%submission`, `%%template`, `# MASTER ONLY`,
`BEGIN SOLUTION` and `END SOLUTION`. -/
theorem C5_student_token_free (n : Notebook) (lang : Language) (nb2 : Notebook)
    (hwf : n.cells.all wfCell = true)
    (hok : ToStudent n lang = .ok nb2) :
    nb2.cells.all (fun c => tokenFree c.source) = true := by
  unfold ToStudent at hok
  simp only [bind, Except.bind] at hok
  cases hf : n.cells.foldlM (toStudentStep lang) ([], { assignMeta := [], exMeta := [] }) with
  | error e =>
    simp only [hf] at hok
    exact Except.noConfusion hok
  | ok p =>
    simp only [hf] at hok
    have hnb : _ = nb2 := Except.ok.inj hok
    rw [← hnb]
    rw [List.all_eq_true]
    intro c hc
    exact toStudentFold_tokenFree lang n.cells [] _ p.1 p.2
      (fun c hc => absurd hc (List.not_mem_nil c)) hwf hf c hc

/-- Counterexample for C5: the student transformation keeps a markdown cell
mentioning `%%solution` and a code cell carrying raw `BEGIN SOLUTION` and
`END SOLUTION` markers (no `%%solution` magic) verbatim. -/
theorem C5_counterexample :
    ToStudent nbC5cex .anyLanguage = .ok nbC5cexOut ∧
    hasSub "%%solution".toList (nbC5cexOut.cells.getD 0 cellDflt).source = true ∧
    hasSub "BEGIN SOLUTION".toList (nbC5cexOut.cells.getD 1 cellDflt).source = true := by
  refine ⟨rfl, ?_, ?_⟩ <;> decide

/-- Witness for C5 at a concrete well-formed master notebook. -/
theorem C5_witness :
    nbC5w.cells.all wfCell = true ∧
    ToStudent nbC5w .anyLanguage = .ok nbC5wOut ∧
    nbC5wOut.cells.all (fun c => tokenFree c.source) = true :=
  ⟨by decide, rfl, C5_student_token_free nbC5w .anyLanguage nbC5wOut (by decide) rfl⟩

end PEA
